import Mathlib

/-!
Verification of the filing-location inference engine of the MSTRL-OCR
repository (src/modules/filing.py): the directory crawler
(crawl_file_system), the folder scorer / location suggester
(suggest_filing_location) and the collision-safe persistence writer
(save_file), shallowly embedded in Lean 4.

Modelling conventions:
- Python strings are Lean Strings; character predicates (isalpha, lower,
  upper, digits) are modelled on their ASCII behaviour, which is the range
  exercised by the code's fixed vocabularies and by all fixtures.
- The filesystem interface consumed by the crawler (Path.iterdir and
  os.walk) is modelled as the data the OS hands back: the list of direct
  child directory names and the os.walk preorder sequence of
  (relative depth of root, child directory names, file names) records.
- Fractional scores (the 0.5-per-depth penalty) are modelled in Rat.
- datetime.now() is modelled as an explicit argument (the current year for
  the suggester, a full timestamp for the writer).
-/

namespace Filing

/-! ### Generic string helpers (Python semantics) -/

/-- Model of Python substring containment: is the list a prefix. -/
def chPre : List Char → List Char → Bool
  | [], _ => true
  | _ :: _, [] => false
  | a :: as, b :: bs => a = b && chPre as bs

/-- Model of Python substring containment (needle occurs somewhere in hay). -/
def chSub (needle hay : List Char) : Bool :=
  match hay with
  | [] => needle.isEmpty
  | _ :: t => chPre needle hay || chSub needle t

/-- Model of the Python expression `needle in hay` on strings. -/
def strContains (hay needle : String) : Bool :=
  chSub needle.data hay.data

/-- Model of Python str.lower (ASCII range). -/
def strLower (s : String) : String :=
  (s.data.map Char.toLower).asString

/-- Model of Python str.split() with no argument: split on whitespace runs,
dropping empty pieces. -/
def pySplitWS (s : String) : List String :=
  (s.split Char.isWhitespace).filter (fun w => w ≠ "")

/-- Prepend a character onto the first chunk of a chunk list. -/
def consHead (c : Char) : List (List Char) → List (List Char)
  | [] => [[c]]
  | h :: t => (c :: h) :: t

/-- Model of Python str.split on the slash character, on character lists.
Mirrors `"a/b".split("/") == ["a", "b"]`, `"".split("/") == [""]`. -/
def splitSlash : List Char → List (List Char)
  | [] => [[]]
  | c :: cs =>
    if c = '/' then [] :: splitSlash cs
    else consHead c (splitSlash cs)

/-- Path components of a string as pathlib sees them: split on slash, with
empty components and "." components dropped (pathlib normalises those away
at construction). -/
def pySegs (s : String) : List String :=
  ((splitSlash s.data).map (fun cs => cs.asString)).filter
    (fun t => t ≠ "" && t ≠ ".")

/-- Does the string begin with a slash (pathlib's absolute-path test for
POSIX-style strings)? -/
def startsSlash (s : String) : Bool :=
  s.data.head? = some '/'

/-- Model of pathlib's `base / child`: an absolute right operand replaces
the base entirely, otherwise its components are appended. -/
def pyJoin (base : List String) (child : String) : List String :=
  if startsSlash child then pySegs child else base ++ pySegs child

/-- Last path component, as pathlib's `.name` (empty for the root). -/
def lastName : List String → String
  | [] => ""
  | [x] => x
  | _ :: xs => lastName xs

/-- Helper locating the LAST dot of a character list: returns the part
before it and the part from the dot on. -/
def splitLastDot : List Char → Option (List Char × List Char)
  | [] => none
  | c :: cs =>
    match splitLastDot cs with
    | some (b, s) => some (c :: b, s)
    | none => if c = '.' then some ([], c :: cs) else none

/-- Model of pathlib's `.stem` and `.suffix` on a single name: the suffix is
the final dotted part provided the last dot is neither the first nor the
last character. -/
def pyStemSuffix (name : String) : String × String :=
  match splitLastDot name.data with
  | some (b, s) =>
    if b ≠ [] ∧ 2 ≤ s.length then (b.asString, s.asString) else (name, "")
  | none => (name, "")

/-- Model of pathlib's `.stem`. -/
def pyStem (name : String) : String := (pyStemSuffix name).1

/-- Model of pathlib's `.suffix` (includes the dot, or empty). -/
def pySuffix (name : String) : String := (pyStemSuffix name).2

/-- Decimal digit character for a value below ten. -/
def digitChar (n : Nat) : Char :=
  if n = 0 then '0' else if n = 1 then '1' else if n = 2 then '2'
  else if n = 3 then '3' else if n = 4 then '4' else if n = 5 then '5'
  else if n = 6 then '6' else if n = 7 then '7' else if n = 8 then '8'
  else '9'

/-- Fuel-driven decimal rendering (most significant digit first). -/
def natCharsAux : Nat → Nat → List Char
  | 0, _ => []
  | fuel + 1, n =>
    if n < 10 then [digitChar n]
    else natCharsAux fuel (n / 10) ++ [digitChar (n % 10)]

/-- Model of Python str(n) for a natural number: its decimal digits. -/
def natToString (n : Nat) : String :=
  (natCharsAux (n + 1) n).asString

/-- Model of Python str.title (ASCII range): an alphabetic character is
upper-cased when the previous character was not alphabetic, lower-cased
otherwise. -/
def pyTitleAux : List Char → Bool → List Char
  | [], _ => []
  | c :: cs, prev =>
    if c.isAlpha then
      (cond prev c.toLower c.toUpper) :: pyTitleAux cs true
    else c :: pyTitleAux cs false

/-- Model of Python str.title. -/
def pyTitle (s : String) : String :=
  (pyTitleAux s.data false).asString

/-- Model of Python "_".join. -/
def joinUnderscore : List String → String
  | [] => ""
  | [x] => x
  | x :: xs => x ++ "_" ++ joinUnderscore xs

/-! ### The directory crawler (crawl_file_system)

Python dicts preserve insertion order; an ordered association list mirrors
them exactly (update in place, append new keys at the end). -/

/-- One os.walk record: the relative depth of the visited root, the names
of its child directories, and the names of its files, in OS order. -/
abbrev WalkEntry : Type := Nat × List String × List String

/-- The filesystem data the crawler consumes: what Path.iterdir reports as
the base directory's direct child directories, and the os.walk preorder
sequence (the root itself is the first record, at depth 0). The error
branches of the source (missing base directory, PermissionError) are the
cases where the OS hands back nothing; they short-circuit before any of
the behaviour the claims are about and are outside this model. -/
structure FSView where
  baseDirs : List String
  walk : List WalkEntry
deriving DecidableEq

/-- Model of `folders[depth][name] = 1` on an ordered dict: overwrite the
present key in place, or append the new key at the end. -/
def setOne : List (String × Nat) → String → List (String × Nat)
  | [], k => [(k, 1)]
  | p :: ps, k => if p.1 = k then (k, 1) :: ps else p :: setOne ps k

/-- Model of ensure-key-then-increment on an ordered dict of counters. -/
def bumpName : List (String × Nat) → String → List (String × Nat)
  | [], k => [(k, 1)]
  | p :: ps, k => if p.1 = k then (p.1, p.2 + 1) :: ps else p :: bumpName ps k

/-- Model of the source's three-line counter update on
`structure["folders"]`: ensure the depth key, ensure the name key, then
increment. -/
def bumpDepth : List (Nat × List (String × Nat)) → Nat → String →
    List (Nat × List (String × Nat))
  | [], d, k => [(d, bumpName [] k)]
  | e :: es, d, k =>
    if e.1 = d then (e.1, bumpName e.2 k) :: es else e :: bumpDepth es d k

/-- Mutable state threaded through the os.walk loop of crawl_file_system. -/
structure CrawlSt where
  folders : List (Nat × List (String × Nat))
  exts : List (String × Nat)
  pats : List String
  fileCount : Nat
deriving DecidableEq

/-- Naming-pattern tags contributed by one filename stem, in source order. -/
def stemPatterns (stem : String) : List String :=
  (if stem.data.any Char.isDigit then ["contains_numbers"] else []) ++
  (if stem.data.contains '_' then ["uses_underscores"] else []) ++
  (if stem.data.contains '-' then ["uses_hyphens"] else []) ++
  (if stem.data.any Char.isUpper then ["uses_capitals"] else [])

/-- Per-file bookkeeping of the crawler: count the lowercased extension and
collect naming patterns from the stem (when non-empty). -/
def crawlFile (s : CrawlSt) (fileName : String) : CrawlSt :=
  let ext := strLower (pySuffix fileName)
  let stem := pyStem fileName
  { s with
    exts := bumpName s.exts ext
    pats := s.pats ++ (if stem ≠ "" then stemPatterns stem else [])
    fileCount := s.fileCount + 1 }

/-- The crawler's inner file loop, with its `file_count >= max_files` break
checked before each file. -/
def crawlFiles (maxFiles : Nat) : List String → CrawlSt → CrawlSt
  | [], s => s
  | f :: fs, s =>
    if maxFiles ≤ s.fileCount then s
    else crawlFiles maxFiles fs (crawlFile s f)

/-- The crawler's os.walk loop: break once the file cap is reached, skip
roots deeper than max_depth, count child directory names (at the root's
depth) only for roots at depth two or more, then process the files. -/
def crawlWalk (maxDepth maxFiles : Nat) : List WalkEntry → CrawlSt → CrawlSt
  | [], s => s
  | (depth, dirs, files) :: rest, s =>
    if maxFiles ≤ s.fileCount then s
    else if maxDepth < depth then crawlWalk maxDepth maxFiles rest s
    else
      let s1 :=
        if 2 ≤ depth then
          { s with folders := dirs.foldl (fun F n => bumpDepth F depth n) s.folders }
        else s
      crawlWalk maxDepth maxFiles rest (crawlFiles maxFiles files s1)

/-- Stable insertion, descending by count: a new element goes after every
element whose count is at least its own. Together with the left fold below
this models Python's stable `sorted(..., key=count, reverse=True)`. -/
def insByCount (x : String × Nat) : List (String × Nat) → List (String × Nat)
  | [] => [x]
  | y :: ys => if y.2 < x.2 then x :: y :: ys else y :: insByCount x ys

/-- Model of `sorted(d.items(), key=count, reverse=True)`. -/
def sortByCountDesc (l : List (String × Nat)) : List (String × Nat) :=
  l.foldl (fun acc x => insByCount x acc) []

/-- Helper for dedupKeepFirst accumulating the names already emitted. -/
def dedupAux : List String → List String → List String
  | [], _ => []
  | x :: xs, seen =>
    if seen.contains x then dedupAux xs seen
    else x :: dedupAux xs (x :: seen)

/-- Keep the first occurrence of each element. The source computes
`list(set(...))`, whose order CPython leaves unspecified; the claims never
depend on this order. -/
def dedupKeepFirst (l : List String) : List String :=
  dedupAux l []

/-- The crawl result fields consumed downstream. The source's
`file_patterns` field (always empty), `depth_analysis` and `debug_info`
never influence suggest_filing_location and are omitted. -/
structure DirProfile where
  folders : List (Nat × List (String × Nat))
  common_extensions : List (String × Nat)
  naming_patterns : List String
deriving DecidableEq

/-- Model of crawl_file_system: seed `folders` with the synthetic depth-0
entry `{"base": 1}` and the depth-1 census of direct children (each set to
count 1), run the os.walk loop, then deduplicate naming patterns and trim
the extension histogram to the top ten counts. -/
def crawl_file_system (v : FSView) (maxDepth : Nat := 3) (maxFiles : Nat := 100) :
    DirProfile :=
  let f1 := v.baseDirs.foldl (fun m n => setOne m n) []
  let s0 : CrawlSt := ⟨[(0, [("base", 1)]), (1, f1)], [], [], 0⟩
  let s := crawlWalk maxDepth maxFiles v.walk s0
  { folders := s.folders
    common_extensions := (sortByCountDesc s.exts).take 10
    naming_patterns := dedupKeepFirst s.pats }

/-- Inner counter dict recorded for one depth (empty when absent). -/
def foldersAt : List (Nat × List (String × Nat)) → Nat → List (String × Nat)
  | [], _ => []
  | e :: es, d => if e.1 = d then e.2 else foldersAt es d

/-- Count stored under one name in a counter dict (zero when absent). -/
def lookupN : List (String × Nat) → String → Nat
  | [], _ => 0
  | p :: ps, n => if p.1 = n then p.2 else lookupN ps n

/-- Count recorded for one folder name at one depth (zero when absent). -/
def lookupF (F : List (Nat × List (String × Nat))) (d : Nat) (n : String) : Nat :=
  lookupN (foldersAt F d) n

/-- A folder name occurring anywhere in the folder census. -/
def nameInF (F : List (Nat × List (String × Nat))) (n : String) : Prop :=
  ∃ e ∈ F, ∃ c, (n, c) ∈ e.2

/-- Total number of file names offered by a walk sequence. -/
def sumFiles (w : List WalkEntry) : Nat :=
  (w.map (fun e => e.2.2.length)).sum

/-- Occurrences of one child-directory name among the walk entries at one
depth. -/
def countAtDepth (w : List WalkEntry) (d : Nat) (n : String) : Nat :=
  (w.map (fun e =>
    if e.1 = d then (e.2.1.filter (fun m => m = n)).length else 0)).sum

/-! ### The location suggester (suggest_filing_location)

The source extracts fields from the structured_data dict with
`.get(key, default)`; DocAttrs carries the same fields with the same
defaults. Entities that are not strings are skipped by every
`isinstance(entity, str)` guard in the source, so modelling
`key_entities` as a list of strings is observationally equivalent.
The `base_directory` argument of the source function is never used in its
body and is dropped. -/

structure DocAttrs where
  intent : String := ""
  category : String := ""
  key_entities : List String := []
  summary : String := ""
  file_type : String := ""
  filename : String := ""
deriving DecidableEq

/-- Evidence entries: one constructor per f-string the source appends to an
evidence list, carrying the data interpolated into it. keywordMatch is
"Keyword ... found in existing folder ...", financialMatch / legalMatch /
reportMatch are the three semantic-class messages, entityMatch is
"Entity ... matches existing folder ...", similarFileTypes is "Existing
folder contains similar file types ...", the new* constructors are the five
"Creating new ..." messages of the synthesis branch, noMatchingFolders is
the prepended "No matching existing folders found" flag, and
yearExistingPattern / yearNew are the two year-subfolder messages. -/
inductive Evidence where
  | keywordMatch (keyword folder : String)
  | financialMatch (folder : String)
  | legalMatch (folder : String)
  | reportMatch (folder : String)
  | entityMatch (entity folder : String)
  | similarFileTypes (ext : String)
  | newFinancial
  | newLegal
  | newReports
  | newPolicies
  | newFromKeywords (name : String)
  | newGeneral
  | noMatchingFolders
  | yearExistingPattern (year : String)
  | yearNew (year : String)
deriving DecidableEq

/-- The intents that trigger the year subfolder. -/
def temporalTypes : List String := ["invoice", "receipt", "contract", "report"]

/-- Financial-intent vocabulary of the +8 semantic rule. -/
def financialTypes : List String := ["invoice", "receipt", "payment", "bill"]

/-- Folder words counted as financial by the +8 semantic rule. -/
def financialWords : List String :=
  ["financial", "finance", "money", "billing", "invoice", "receipt",
   "payment", "expense", "accounting"]

/-- Legal-intent vocabulary of the +8 semantic rule. -/
def legalTypes : List String := ["contract", "agreement", "legal"]

/-- Folder words counted as legal by the +8 semantic rule. -/
def legalWords : List String :=
  ["legal", "contract", "agreement", "law", "compliance", "terms"]

/-- Report-intent vocabulary of the +8 semantic rule. -/
def reportTypes : List String := ["report", "analysis", "study"]

/-- Folder words counted as report-like by the +8 semantic rule. -/
def reportWords : List String :=
  ["report", "analysis", "study", "research", "data", "analytics"]

/-- Policy-intent vocabulary of the synthesis branch. -/
def policyTypes : List String := ["policy", "handbook", "procedure"]

/-- The doc_keywords list: lowered intent and category when non-empty,
words of the lowered summary longer than three characters and purely
alphabetic, and the lowered string entities (when the entity list is
non-empty). -/
def docKeywords (sd : DocAttrs) : List String :=
  let docType := strLower sd.intent
  let docCategory := strLower sd.category
  let summary := strLower sd.summary
  (if docType ≠ "" then [docType] else []) ++
  (if docCategory ≠ "" then [docCategory] else []) ++
  (if summary ≠ "" then
    (pySplitWS summary).filter
      (fun w => 3 < w.length && w.data.all Char.isAlpha)
   else []) ++
  (if sd.key_entities ≠ [] then sd.key_entities.map strLower else [])

/-- The keyword loop of the scorer: +5 and an evidence entry per keyword
that is a substring of the lowercased folder name, starting from a zero
score and empty evidence. -/
def kwScore (sd : DocAttrs) (folderName : String) : Rat × List Evidence :=
  (docKeywords sd).foldl
    (fun (a : Rat × List Evidence) kw =>
      if strContains (strLower folderName) kw then
        (a.1 + 5, a.2 ++ [Evidence.keywordMatch kw folderName])
      else a) ((0 : Rat), ([] : List Evidence))

/-- The three semantic-class checks of the scorer: +8 and an evidence entry
per class whose intent list contains the document type and whose word list
hits the lowercased folder name. -/
def semScore (sd : DocAttrs) (folderName : String) (a : Rat × List Evidence) :
    Rat × List Evidence :=
  let docType := strLower sd.intent
  let folderLower := strLower folderName
  let a2 :=
    if docType ∈ financialTypes ∧
        financialWords.any (fun w => strContains folderLower w) then
      (a.1 + 8, a.2 ++ [Evidence.financialMatch folderName])
    else a
  let a3 :=
    if docType ∈ legalTypes ∧
        legalWords.any (fun w => strContains folderLower w) then
      (a2.1 + 8, a2.2 ++ [Evidence.legalMatch folderName])
    else a2
  if docType ∈ reportTypes ∧
      reportWords.any (fun w => strContains folderLower w) then
    (a3.1 + 8, a3.2 ++ [Evidence.reportMatch folderName])
  else a3

/-- The entity loop of the scorer: +6 and an evidence entry per entity whose
lowercased text, or any of its whitespace tokens, occurs in the lowercased
folder name. -/
def entScore (sd : DocAttrs) (folderName : String) (a : Rat × List Evidence) :
    Rat × List Evidence :=
  if sd.key_entities ≠ [] then
    sd.key_entities.foldl
      (fun (a2 : Rat × List Evidence) e =>
        let el := strLower e
        if strContains (strLower folderName) el ∨
            (pySplitWS el).any (fun w => strContains (strLower folderName) w) then
          (a2.1 + 6, a2.2 ++ [Evidence.entityMatch e folderName])
        else a2) a
  else a

/-- The frequency bonus and depth penalty of the scorer: plus
min(count, 5), minus half the depth. -/
def freqDepthScore (depth folderCount : Nat) (a : Rat × List Evidence) :
    Rat × List Evidence :=
  (a.1 + (min folderCount 5 : Nat) - (depth : Rat) * (1 / 2 : Rat), a.2)

/-- The extension check of the scorer: +3 and an evidence entry when the
histogram is non-empty and the document's (raw, undotted) lowercased
file_type occurs among its keys. -/
def extScore (sd : DocAttrs) (commonExts : List (String × Nat))
    (a : Rat × List Evidence) : Rat × List Evidence :=
  if commonExts ≠ [] then
    let docExt := strLower sd.file_type
    if commonExts.any (fun p => p.1 = docExt) then
      (a.1 + 3, a.2 ++ [Evidence.similarFileTypes docExt])
    else a
  else a

/-- The additive score and evidence trail of one candidate folder, exactly
as the inner loop of suggest_filing_location accumulates them: +5 per
keyword substring match, +8 per applicable semantic class, +6 per matching
entity, plus min(count, 5), minus depth times one half, and +3 when the
document's file_type occurs as a key of the non-empty extension
histogram. -/
def folderScore (sd : DocAttrs) (commonExts : List (String × Nat))
    (depth : Nat) (folderName : String) (folderCount : Nat) :
    Rat × List Evidence :=
  extScore sd commonExts
    (freqDepthScore depth folderCount
      (entScore sd folderName
        (semScore sd folderName
          (kwScore sd folderName))))

/-- The candidate folders in the iteration order of the nested dict loops:
depths in insertion order, names in insertion order within a depth. -/
def flatFolders (F : List (Nat × List (String × Nat))) :
    List (Nat × String × Nat) :=
  F.flatMap (fun e => e.2.map (fun p => (e.1, p.1, p.2)))

/-- Running best of the scoring loop. -/
structure Best where
  path : String
  score : Rat
  evidence : List Evidence
  isNew : Bool
deriving DecidableEq

/-- One step of the scoring loop: a strictly greater score replaces the
running best (so ties keep the first-encountered candidate) and marks the
result as an existing folder. -/
def selStep (sd : DocAttrs) (commonExts : List (String × Nat))
    (b : Best) (t : Nat × String × Nat) : Best :=
  let r := folderScore sd commonExts t.1 t.2.1 t.2.2
  if b.score < r.1 then ⟨t.2.1, r.1, r.2, false⟩ else b

/-- The scoring loop over every discovered folder. -/
def selectBest (sd : DocAttrs) (commonExts : List (String × Nat))
    (F : List (Nat × List (String × Nat))) : Best :=
  (flatFolders F).foldl (selStep sd commonExts) ⟨"", 0, [], true⟩

/-- The best additive score over all discovered folders (zero when none
beats the loop's zero initialisation). -/
def maxFolderScore (sd : DocAttrs) (st : DirProfile) : Rat :=
  (flatFolders st.folders).foldl
    (fun m t => max m (folderScore sd st.common_extensions t.1 t.2.1 t.2.2).1) 0

/-- The selection-plus-synthesis phase of suggest_filing_location: keep the
best-scoring folder when its score reaches 5, otherwise synthesize a new
folder name (fixed name per semantic class, else the top two keywords
title-cased and joined, else Other_Documents) and prepend the
no-matching-folders evidence flag. -/
def selectPhase (sd : DocAttrs) (st : DirProfile) : String × List Evidence × Bool :=
  let b := selectBest sd st.common_extensions st.folders
  if b.score < 5 then
    let docType := strLower sd.intent
    let p :=
      if docType ∈ financialTypes then
        ("Financial_Documents", [Evidence.newFinancial])
      else if docType ∈ legalTypes then
        ("Legal_Documents", [Evidence.newLegal])
      else if docType ∈ reportTypes then
        ("Reports_and_Analysis", [Evidence.newReports])
      else if docType ∈ policyTypes then
        ("Policies_and_Procedures", [Evidence.newPolicies])
      else if docKeywords sd ≠ [] then
        let folderName := joinUnderscore (((docKeywords sd).take 2).map pyTitle)
        (folderName ++ "_Documents", [Evidence.newFromKeywords folderName])
      else
        ("Other_Documents", [Evidence.newGeneral])
    (p.1, Evidence.noMatchingFolders :: p.2, true)
  else (b.path, b.evidence, b.isNew)

/-- Does any discovered folder name contain the current year, or any year
between 2020 and the current year, as a substring? (The source's first
disjunct is subsumed by the range check; the inner break only shortcuts the
scan.) -/
def yearTokenExists (F : List (Nat × List (String × Nat))) (year : Nat) : Bool :=
  F.any (fun e => e.2.any (fun p =>
    strContains p.1 (natToString year) ||
    (List.range' 2020 (year + 1 - 2020)).any
      (fun y => strContains p.1 (natToString y))))

/-- Model of suggest_filing_location: run selection/synthesis, then for the
four temporal intents append the current year as a final path segment; the
evidence wording depends on whether an existing folder name carries a year
token, and only the no-token branch forces is_new_folder to true. -/
def suggest_filing_location (sd : DocAttrs) (st : DirProfile) (year : Nat) :
    String × List Evidence × Bool :=
  let r := selectPhase sd st
  if strLower sd.intent ∈ temporalTypes then
    let y := natToString year
    if yearTokenExists st.folders year then
      (r.1 ++ "/" ++ y, r.2.1 ++ [Evidence.yearExistingPattern y], r.2.2)
    else
      (r.1 ++ "/" ++ y, r.2.1 ++ [Evidence.yearNew y], true)
  else r

/-- Path-safety predicate of the specification: the suggested path is
relative (no leading slash) and has no ".." component. -/
def pathSafe (p : String) : Prop :=
  startsSlash p = false ∧ ".." ∉ pySegs p

instance (p : String) : Decidable (pathSafe p) := by
  unfold pathSafe; infer_instance

/-! ### The persistence writer (save_file)

Absolute paths are lists of components from the root. The filesystem state
is the map of existing regular files (path to byte content, bytes as Nat)
plus the set of existing directories. Permission failures (the PermissionError
branches and the os.access check) concern OS state outside this model; the
modelled runs are the ones in which the OS grants access, which are the
runs the claims quantify over. -/

/-- A timestamp as datetime.now() provides it. -/
structure PyDateTime where
  year : Nat
  month : Nat
  day : Nat
  hour : Nat
  minute : Nat
  second : Nat
deriving DecidableEq

/-- Zero-padded two-digit field of strftime. -/
def pad2 (n : Nat) : String :=
  if n < 10 then "0" ++ natToString n else natToString n

/-- Zero-padded four-digit year field of strftime. -/
def pad4 (n : Nat) : String :=
  if n < 10 then "000" ++ natToString n
  else if n < 100 then "00" ++ natToString n
  else if n < 1000 then "0" ++ natToString n
  else natToString n

/-- Model of `datetime.now().strftime("%Y%m%d_%H%M%S")`. -/
def tsFormat (t : PyDateTime) : String :=
  pad4 t.year ++ pad2 t.month ++ pad2 t.day ++ "_" ++
  pad2 t.hour ++ pad2 t.minute ++ pad2 t.second

/-- Filesystem state seen by save_file. -/
structure PyFS where
  files : List (List String × List Nat)
  dirs : List (List String)
deriving DecidableEq

/-- Model of Path.exists(): a file or directory at this path. -/
def pathExists (fs : PyFS) (p : List String) : Bool :=
  fs.files.any (fun q => q.1 = p) || fs.dirs.any (fun d => d = p)

/-- Lookup in the file map. -/
def readFiles : List (List String × List Nat) → List String → Option (List Nat)
  | [], _ => none
  | q :: qs, p => if q.1 = p then some q.2 else readFiles qs p

/-- Content of the file at a path, when one exists. -/
def readFile (fs : PyFS) (p : List String) : Option (List Nat) :=
  readFiles fs.files p

/-- Update in the file map: overwrite the entry at a present path, create
the entry otherwise. -/
def writeFiles : List (List String × List Nat) → List String → List Nat →
    List (List String × List Nat)
  | [], p, c => [(p, c)]
  | q :: qs, p, c => if q.1 = p then (p, c) :: qs else q :: writeFiles qs p c

/-- Model of `open(path, "wb"); f.write(content)`: overwrite an existing
file in place, otherwise create it. -/
def writeFile (fs : PyFS) (p : List String) (c : List Nat) : PyFS :=
  { fs with files := writeFiles fs.files p c }

/-- Lexical ".."-elimination of Path.resolve() (a ".." at the root stays at
the root, as on POSIX); symlinks and the working directory are outside the
model. -/
def resolveDots (p : List String) : List String :=
  p.foldl (fun acc s => if s = ".." then acc.dropLast else acc ++ [s]) []

/-- The timestamp-suffixed collision name `<stem>_<YYYYMMDD_HHMMSS><ext>`
derived from the colliding path's last component. -/
def collisionName (name : String) (now : PyDateTime) : String :=
  pyStem name ++ "_" ++ tsFormat now ++ pySuffix name

/-- Outcome record of save_file. The source also reads the modification
time back from stat(); wall-clock metadata is outside the filesystem map
and carried nowhere by the claims. -/
structure SaveOutcome where
  success : Bool
  path : List String
  size : Nat
  renamed : Bool
deriving DecidableEq

/-- The directory-creation step of save_file: `dest_path.mkdir(parents=True,
exist_ok=True)` when the destination does not exist yet. Ancestor creation
is immaterial to the claims and not tracked. -/
def mkdirStep (fs : PyFS) (destR : List String) : PyFS :=
  if pathExists fs destR then fs else { fs with dirs := destR :: fs.dirs }

/-- The collision step of save_file: the single existence check on the
originally requested path, diverting to the timestamp-suffixed sibling of
the destination directory when it hits. -/
def targetPath (fs1 : PyFS) (destR : List String) (filename : String)
    (now : PyDateTime) : List String :=
  if pathExists fs1 (pyJoin destR filename) then
    destR ++ [collisionName (lastName (pyJoin destR filename)) now]
  else pyJoin destR filename

/-- Model of save_file: resolve the destination, create it if absent, join
the filename, divert to the timestamp-suffixed sibling when the requested
path already exists, write, and report the final path with a renamed flag
comparing the final name against the requested filename. -/
def save_file (fileContent : List Nat) (filename : String)
    (destinationPath : List String) (now : PyDateTime) (fs : PyFS) :
    PyFS × SaveOutcome :=
  let destPath := resolveDots destinationPath
  let fs1 := mkdirStep fs destPath
  let finalPath := targetPath fs1 destPath filename now
  (writeFile fs1 finalPath fileContent,
   { success := true
     path := finalPath
     size := fileContent.length
     renamed := decide (¬ (lastName finalPath = filename)) })

/-- Strictly-below relation on resolved paths: the child extends the base
by at least one component. -/
def strictlyUnder (child base : List String) : Prop :=
  ∃ r, r ≠ [] ∧ child = base ++ r

/-! ### Fixtures used by witnesses and counterexamples -/

/-- A base directory with no children at all. -/
def emptyView : FSView := ⟨[], [(0, [], [])]⟩

/-- Document whose intent smuggles a parent-directory reference. -/
def sdDotDot : DocAttrs := { intent := "../secret" }

/-- Document with a plain non-temporal intent for the threshold fixture. -/
def sdMemo : DocAttrs := { intent := "memo" }

/-- Tree base/a/b/memo_files: the walk visits roots at depths 0..3, so the
name memo_files is recorded at depth 2 with count 1. -/
def viewMemo : FSView :=
  ⟨["a"], [(0, ["a"], []), (1, ["b"], []), (2, ["memo_files"], []), (3, [], [])]⟩

/-- Invoice document for the temporal-augmentation fixture. -/
def sdInvoice : DocAttrs := { intent := "invoice" }

/-- A base directory with one child folder carrying a year token. -/
def viewYear : FSView :=
  ⟨["invoices_2023"], [(0, ["invoices_2023"], []), (1, [], [])]⟩

/-- Tree base/A/B: B is a directory node at relative depth 2. -/
def viewAB : FSView :=
  ⟨["A"], [(0, ["A"], []), (1, ["B"], []), (2, [], [])]⟩

/-- The end-to-end fixture document of the specification. -/
def sdAcme : DocAttrs :=
  { intent := "invoice", file_type := "pdf", key_entities := ["Acme Corp"] }

/-- The end-to-end fixture tree: one subfolder Financial_Documents holding
three .pdf files. -/
def viewAcme : FSView :=
  ⟨["Financial_Documents"],
   [(0, ["Financial_Documents"], []),
    (1, [], ["a.pdf", "b.pdf", "c.pdf"])]⟩

/-- Document for the depth-0 "base" entry fixture: a non-temporal intent
and a summary containing the word base. -/
def sdBase : DocAttrs := { intent := "misc", summary := "Just the base case" }

/-- Two immediate subfolders, no deeper nesting. -/
def viewTwo : FSView := ⟨["X", "Y"], [(0, ["X", "Y"], []), (1, [], []), (1, [], [])]⟩

/-- A fixed timestamp for the writer fixtures. -/
def tsFix : PyDateTime := ⟨2026, 10, 12, 9, 30, 5⟩

/-- Writer fixture: a destination holding x.pdf already. -/
def fsOne : PyFS :=
  ⟨[(["home", "docs", "x.pdf"], [1, 2, 3])], [["home", "docs"]]⟩

/-- Writer fixture: a destination holding both x.pdf and the
timestamp-suffixed variant the collision policy would produce at tsFix. -/
def fsTwo : PyFS :=
  ⟨[(["d", "x.pdf"], [1]), (["d", "x_20261012_093005.pdf"], [2])], [["d"]]⟩

/-- A string the OS can hand back as the name of one directory entry:
non-empty, not one of the two reserved names, and without the path
separator. -/
def validName (n : String) : Prop :=
  n ≠ "" ∧ n ≠ "." ∧ n ≠ ".." ∧ '/' ∉ n.data

/-- An FSView whose directory names are all OS-legal entry names. -/
def ValidView (v : FSView) : Prop :=
  (∀ n ∈ v.baseDirs, validName n) ∧
  (∀ e ∈ v.walk, ∀ n ∈ e.2.1, validName n)

instance (n : String) : Decidable (validName n) := by
  unfold validName; infer_instance

instance (v : FSView) : Decidable (ValidView v) := by
  unfold ValidView; infer_instance

/-! ### Lemmas on the string helpers -/

theorem dataAsString (s : String) : s.data.asString = s :=
  String.asString_toList s

theorem asStringData (l : List Char) : (l.asString).data = l :=
  rfl

theorem chPre_subset : ∀ {n h : List Char}, chPre n h = true → ∀ c ∈ n, c ∈ h := by
  intro n
  induction n with
  | nil => intro h _ c hc; cases hc
  | cons a as ih =>
    intro h hp c hc
    cases h with
    | nil => simp [chPre] at hp
    | cons b bs =>
      simp only [chPre, Bool.and_eq_true, decide_eq_true_eq] at hp
      rw [List.mem_cons] at hc
      rcases hc with hc | hc
      · subst hc; simp [hp.1]
      · exact List.mem_cons_of_mem _ (ih hp.2 c hc)

theorem chSub_subset : ∀ {h n : List Char}, chSub n h = true → ∀ c ∈ n, c ∈ h := by
  intro h
  induction h with
  | nil =>
    intro n hs c hc
    simp only [chSub, List.isEmpty_iff] at hs
    subst hs; cases hc
  | cons b bs ih =>
    intro n hs c hc
    simp only [chSub, Bool.or_eq_true] at hs
    rcases hs with hs | hs
    · exact chPre_subset hs c hc
    · exact List.mem_cons_of_mem _ (ih hs c hc)

theorem strContains_subset {hay needle : String}
    (h : strContains hay needle = true) : ∀ c ∈ needle.data, c ∈ hay.data :=
  chSub_subset h

theorem strContains_eq_false {hay needle : String} (c : Char)
    (hc : c ∈ needle.data) (hh : c ∉ hay.data) : strContains hay needle = false := by
  cases hs : strContains hay needle with
  | false => rfl
  | true => exact absurd (strContains_subset hs c hc) hh

theorem splitSlash_ne_nil : ∀ cs, splitSlash cs ≠ [] := by
  intro cs
  induction cs with
  | nil => simp [splitSlash]
  | cons c cs ih =>
    simp only [splitSlash]
    split
    · simp
    · cases h : splitSlash cs with
      | nil => exact absurd h ih
      | cons x xs => simp [consHead]

theorem mem_consHead (c : Char) (l : List (List Char)) (ch : List Char)
    (h : ch ∈ consHead c l) :
    (∃ hd, ch = c :: hd ∧ (hd = [] ∨ hd ∈ l)) ∨ ch ∈ l := by
  cases l with
  | nil =>
    simp only [consHead, List.mem_singleton] at h
    exact Or.inl ⟨[], h, Or.inl rfl⟩
  | cons x xs =>
    simp only [consHead] at h
    rw [List.mem_cons] at h
    rcases h with h | h
    · exact Or.inl ⟨x, h, Or.inr (List.mem_cons_self _ _)⟩
    · exact Or.inr (List.mem_cons_of_mem _ h)

theorem mem_splitSlash_no_slash :
    ∀ cs ch, ch ∈ splitSlash cs → '/' ∉ ch := by
  intro cs
  induction cs with
  | nil =>
    intro ch h
    simp only [splitSlash, List.mem_singleton] at h
    simp [h]
  | cons c cs ih =>
    intro ch h
    simp only [splitSlash] at h
    split at h
    · rw [List.mem_cons] at h
      rcases h with h | h
      · simp [h]
      · exact ih ch h
    · rename_i hc
      rcases mem_consHead c (splitSlash cs) ch h with ⟨hd, heq, hch⟩ | htl
      · subst heq
        intro hm
        rw [List.mem_cons] at hm
        rcases hm with hm | hm
        · exact hc hm.symm
        · rcases hch with hch | hch
          · rw [hch] at hm; cases hm
          · exact ih hd hch hm
      · exact ih ch htl

theorem splitSlash_of_no_slash :
    ∀ cs, '/' ∉ cs → splitSlash cs = [cs] := by
  intro cs
  induction cs with
  | nil => intro _; rfl
  | cons c cs ih =>
    intro h
    have hc : ¬ (c = '/') := by
      intro hcc
      exact h (by rw [hcc]; exact List.mem_cons_self _ _)
    have hcs : '/' ∉ cs := fun hm => h (List.mem_cons_of_mem _ hm)
    simp only [splitSlash, if_neg hc, ih hcs, consHead]

theorem splitSlash_slash (l : List Char) :
    splitSlash ('/' :: l) = [] :: splitSlash l := by
  simp [splitSlash]

theorem splitSlash_other (c : Char) (hc : ¬ (c = '/')) (l : List Char) :
    splitSlash (c :: l) = consHead c (splitSlash l) := by
  simp [splitSlash, hc]

theorem splitSlash_append :
    ∀ xs ys, splitSlash (xs ++ '/' :: ys) = splitSlash xs ++ splitSlash ys := by
  intro xs ys
  induction xs with
  | nil =>
    rw [List.nil_append, splitSlash_slash]
    rfl
  | cons c cs ih =>
    by_cases hc : c = '/'
    · subst hc
      rw [List.cons_append, splitSlash_slash, splitSlash_slash, ih]
      rfl
    · rw [List.cons_append, splitSlash_other c hc, splitSlash_other c hc, ih]
      cases h : splitSlash cs with
      | nil => exact absurd h (splitSlash_ne_nil cs)
      | cons x xs2 => simp [consHead]

theorem mem_char_splitSlash :
    ∀ cs c, c ∈ cs → c = '/' ∨ ∃ ch ∈ splitSlash cs, c ∈ ch := by
  intro cs
  induction cs with
  | nil => intro c hc; cases hc
  | cons b bs ih =>
    intro c hc
    rw [List.mem_cons] at hc
    by_cases hb : b = '/'
    · subst hb
      rcases hc with hc | hc
      · left; exact hc
      · rcases ih c hc with h | ⟨ch, hch, hm⟩
        · left; exact h
        · right
          exact ⟨ch, by rw [splitSlash_slash]; exact List.mem_cons_of_mem _ hch, hm⟩
    · rw [splitSlash_other b hb]
      cases h : splitSlash bs with
      | nil => exact absurd h (splitSlash_ne_nil bs)
      | cons x xs =>
        rcases hc with hc | hc
        · right; exact ⟨b :: x, by simp [consHead], by simp [hc]⟩
        · rcases ih c hc with hr | ⟨ch, hch, hm⟩
          · left; exact hr
          · rw [h] at hch
            rw [List.mem_cons] at hch
            rcases hch with hch | hch
            · right; exact ⟨b :: x, by simp [consHead], by rw [hch] at hm; simp [hm]⟩
            · right; exact ⟨ch, by simp [consHead, hch], hm⟩

theorem pySegs_single (s : String) (h1 : '/' ∉ s.data) (h2 : s ≠ "")
    (h3 : s ≠ ".") : pySegs s = [s] := by
  unfold pySegs
  rw [splitSlash_of_no_slash s.data h1]
  simp only [List.map_cons, List.map_nil, dataAsString]
  rw [List.filter_cons]
  simp [h2, h3]

theorem pySegs_append_slash (a b : String) :
    pySegs (a ++ "/" ++ b) = pySegs a ++ pySegs b := by
  unfold pySegs
  have hd : (a ++ "/" ++ b).data = a.data ++ '/' :: b.data := by
    simp [String.data_append]
  rw [hd, splitSlash_append, List.map_append, List.filter_append]

theorem mem_pySegs (s t : String) (h : t ∈ pySegs s) :
    t ≠ "" ∧ t ≠ "." ∧ '/' ∉ t.data := by
  unfold pySegs at h
  rw [List.mem_filter] at h
  obtain ⟨hm, hf⟩ := h
  rw [List.mem_map] at hm
  obtain ⟨ch, hch, heq⟩ := hm
  simp only [Bool.and_eq_true, decide_eq_true_eq] at hf
  refine ⟨hf.1, hf.2, ?_⟩
  rw [← heq, asStringData]
  exact mem_splitSlash_no_slash s.data ch hch

theorem pySegs_nil_chars (s : String) (h : pySegs s = []) :
    ∀ c ∈ s.data, c = '/' ∨ c = '.' := by
  intro c hc
  rcases mem_char_splitSlash s.data c hc with hr | ⟨ch, hch, hm⟩
  · left; exact hr
  · right
    have hfe : ch.asString = "" ∨ ch.asString = "." := by
      by_contra hcon
      push_neg at hcon
      have : ch.asString ∈ pySegs s := by
        unfold pySegs
        rw [List.mem_filter]
        refine ⟨List.mem_map_of_mem _ hch, ?_⟩
        simp [hcon.1, hcon.2]
      rw [h] at this
      cases this
    have hch2 : ch = [] ∨ ch = ['.'] := by
      rcases hfe with hfe | hfe
      · left
        have := congrArg String.data hfe
        rwa [asStringData] at this
      · right
        have := congrArg String.data hfe
        rwa [asStringData] at this
    rcases hch2 with hch2 | hch2
    · rw [hch2] at hm; cases hm
    · rw [hch2, List.mem_singleton] at hm; exact hm

theorem digitChar_isDigit (n : Nat) : (digitChar n).isDigit = true := by
  unfold digitChar
  repeat' split
  all_goals decide

theorem natCharsAux_digits :
    ∀ fuel n c, c ∈ natCharsAux fuel n → c.isDigit = true := by
  intro fuel
  induction fuel with
  | zero => intro n c hc; cases hc
  | succ fuel ih =>
    intro n c hc
    simp only [natCharsAux] at hc
    split at hc
    · rw [List.mem_singleton] at hc
      rw [hc]; exact digitChar_isDigit n
    · rw [List.mem_append] at hc
      rcases hc with hc | hc
      · exact ih _ c hc
      · rw [List.mem_singleton] at hc
        rw [hc]; exact digitChar_isDigit _

theorem natToString_digits (n : Nat) :
    ∀ c ∈ (natToString n).data, c.isDigit = true := by
  intro c hc
  unfold natToString at hc
  rw [asStringData] at hc
  exact natCharsAux_digits _ n c hc

theorem natCharsAux_ne_nil (fuel n : Nat) (h : 0 < fuel) :
    natCharsAux fuel n ≠ [] := by
  cases fuel with
  | zero => cases h
  | succ fuel =>
    simp only [natCharsAux]
    split
    · simp
    · simp

theorem natToString_data_ne_nil (n : Nat) : (natToString n).data ≠ [] := by
  unfold natToString
  rw [asStringData]
  exact natCharsAux_ne_nil _ n (Nat.succ_pos n)

theorem isDigit_ne_slash (c : Char) (h : c.isDigit = true) : c ≠ '/' := by
  intro heq; rw [heq] at h; exact absurd h (by decide)

theorem isDigit_ne_dot (c : Char) (h : c.isDigit = true) : c ≠ '.' := by
  intro heq; rw [heq] at h; exact absurd h (by decide)

theorem isDigit_ne_underscore (c : Char) (h : c.isDigit = true) : c ≠ '_' := by
  intro heq; rw [heq] at h; exact absurd h (by decide)

theorem natToString_no_slash (n : Nat) : '/' ∉ (natToString n).data := by
  intro hm
  exact isDigit_ne_slash '/' (natToString_digits n '/' hm) rfl

theorem natToString_ne_empty (n : Nat) : natToString n ≠ "" := by
  intro h
  exact natToString_data_ne_nil n (congrArg String.data h)

theorem natToString_ne_dot (n : Nat) : natToString n ≠ "." := by
  intro h
  have := congrArg String.data h
  have hm : '.' ∈ (natToString n).data := by rw [this]; simp
  exact isDigit_ne_dot '.' (natToString_digits n '.' hm) rfl

theorem natToString_ne_dotdot (n : Nat) : natToString n ≠ ".." := by
  intro h
  have := congrArg String.data h
  have hm : '.' ∈ (natToString n).data := by rw [this]; simp
  exact isDigit_ne_dot '.' (natToString_digits n '.' hm) rfl

theorem splitLastDot_append :
    ∀ cs b s, splitLastDot cs = some (b, s) → b ++ s = cs := by
  intro cs
  induction cs with
  | nil => intro b s h; cases h
  | cons c cs ih =>
    intro b s h
    simp only [splitLastDot] at h
    split at h
    · rename_i b2 s2 hrec
      simp only [Option.some.injEq, Prod.mk.injEq] at h
      rw [← h.1, ← h.2, List.cons_append, ih b2 s2 hrec]
    · by_cases hdot : c = '.'
      · rw [if_pos hdot] at h
        simp only [Option.some.injEq, Prod.mk.injEq] at h
        rw [← h.1, ← h.2]
        simp
      · rw [if_neg hdot] at h
        cases h

theorem pyStemSuffix_data (name : String) :
    (pyStemSuffix name).1.data ++ (pyStemSuffix name).2.data = name.data := by
  unfold pyStemSuffix
  split
  · rename_i b s heq
    split
    · simp only [asStringData]
      exact splitLastDot_append name.data b s heq
    · simp
  · simp

theorem stemSuffix_data (name : String) :
    (pyStem name).data ++ (pySuffix name).data = name.data :=
  pyStemSuffix_data name

theorem stem_append_suffix (name : String) :
    pyStem name ++ pySuffix name = name :=
  String.ext (by rw [String.data_append]; exact stemSuffix_data name)

theorem mem_stem_of_name (name : String) (c : Char)
    (h : c ∈ (pyStem name).data) : c ∈ name.data := by
  rw [← stemSuffix_data name]
  exact List.mem_append_left _ h

theorem mem_suffix_of_name (name : String) (c : Char)
    (h : c ∈ (pySuffix name).data) : c ∈ name.data := by
  rw [← stemSuffix_data name]
  exact List.mem_append_right _ h

theorem digits_append (pre : String) (hpre : ∀ c ∈ pre.data, c.isDigit = true)
    (n : Nat) : ∀ c ∈ (pre ++ natToString n).data, c.isDigit = true := by
  intro c hc
  rw [String.data_append, List.mem_append] at hc
  rcases hc with hc | hc
  · exact hpre c hc
  · exact natToString_digits n c hc

theorem pad2_digits (n : Nat) : ∀ c ∈ (pad2 n).data, c.isDigit = true := by
  intro c hc
  unfold pad2 at hc
  split at hc
  · exact digits_append "0" (by decide) n c hc
  · exact natToString_digits n c hc

theorem pad4_digits (n : Nat) : ∀ c ∈ (pad4 n).data, c.isDigit = true := by
  intro c hc
  unfold pad4 at hc
  split at hc
  · exact digits_append "000" (by decide) n c hc
  · split at hc
    · exact digits_append "00" (by decide) n c hc
    · split at hc
      · exact digits_append "0" (by decide) n c hc
      · exact natToString_digits n c hc

theorem tsFormat_chars (t : PyDateTime) :
    ∀ c ∈ (tsFormat t).data, c.isDigit = true ∨ c = '_' := by
  intro c hc
  unfold tsFormat at hc
  simp only [String.data_append, List.mem_append] at hc
  rcases hc with (((((hc | hc) | hc) | hc) | hc) | hc) | hc
  · exact Or.inl (pad4_digits _ c hc)
  · exact Or.inl (pad2_digits _ c hc)
  · exact Or.inl (pad2_digits _ c hc)
  · rw [List.mem_singleton] at hc
    exact Or.inr hc
  · exact Or.inl (pad2_digits _ c hc)
  · exact Or.inl (pad2_digits _ c hc)
  · exact Or.inl (pad2_digits _ c hc)

theorem tsFormat_underscore (t : PyDateTime) : '_' ∈ (tsFormat t).data := by
  unfold tsFormat
  simp only [String.data_append, List.mem_append]
  have h1 : '_' ∈ ("_" : String).data := by decide
  exact Or.inl (Or.inl (Or.inl (Or.inr h1)))

theorem tsFormat_no_slash (t : PyDateTime) : '/' ∉ (tsFormat t).data := by
  intro hm
  rcases tsFormat_chars t '/' hm with h | h
  · exact isDigit_ne_slash '/' h rfl
  · cases h

theorem tsFormat_pos_length (t : PyDateTime) : 0 < (tsFormat t).length := by
  have h := tsFormat_underscore t
  rw [String.length]
  exact List.length_pos.mpr (fun hnil => by rw [hnil] at h; cases h)

theorem toLower_ne_slash (c : Char) (h : ¬ (c = '/')) : ¬ (c.toLower = '/') := by
  show ¬ ((if c.toNat ≥ 65 ∧ c.toNat ≤ 90 then Char.ofNat (c.toNat + 32) else c) = '/')
  by_cases hrange : c.toNat ≥ 65 ∧ c.toNat ≤ 90
  · rw [if_pos hrange]
    intro heq
    obtain ⟨h1, h2⟩ := hrange
    generalize hg : c.toNat + 32 = m at heq
    have hm1 : 97 ≤ m := by omega
    have hm2 : m ≤ 122 := by omega
    interval_cases m <;> exact absurd heq (by decide)
  · rw [if_neg hrange]
    exact h

theorem toUpper_ne_slash (c : Char) (h : ¬ (c = '/')) : ¬ (c.toUpper = '/') := by
  show ¬ ((if c.toNat ≥ 97 ∧ c.toNat ≤ 122 then Char.ofNat (c.toNat - 32) else c) = '/')
  by_cases hrange : c.toNat ≥ 97 ∧ c.toNat ≤ 122
  · rw [if_pos hrange]
    intro heq
    obtain ⟨h1, h2⟩ := hrange
    generalize hg : c.toNat - 32 = m at heq
    have hm1 : 65 ≤ m := by omega
    have hm2 : m ≤ 90 := by omega
    interval_cases m <;> exact absurd heq (by decide)
  · rw [if_neg hrange]
    exact h

theorem pyTitleAux_no_slash :
    ∀ (l : List Char) (prev : Bool), '/' ∉ l → '/' ∉ pyTitleAux l prev := by
  intro l
  induction l with
  | nil => intro prev _ hm; cases hm
  | cons c cs ih =>
    intro prev h hm
    have hc : ¬ (c = '/') := by
      intro hcc; exact h (by rw [hcc]; exact List.mem_cons_self _ _)
    have hcs : '/' ∉ cs := fun hx => h (List.mem_cons_of_mem _ hx)
    simp only [pyTitleAux] at hm
    split at hm
    · rw [List.mem_cons] at hm
      rcases hm with hm | hm
      · cases prev with
        | false => exact toUpper_ne_slash c hc hm.symm
        | true => exact toLower_ne_slash c hc hm.symm
      · exact ih true hcs hm
    · rw [List.mem_cons] at hm
      rcases hm with hm | hm
      · exact hc hm.symm
      · exact ih false hcs hm

theorem pyTitle_no_slash (s : String) (h : '/' ∉ s.data) :
    '/' ∉ (pyTitle s).data := by
  unfold pyTitle
  rw [asStringData]
  exact pyTitleAux_no_slash s.data false h

theorem joinUnderscore_chars :
    ∀ (l : List String) (c : Char), c ∈ (joinUnderscore l).data →
      c = '_' ∨ ∃ s ∈ l, c ∈ s.data := by
  intro l
  induction l with
  | nil => intro c hc; cases hc
  | cons x xs ih =>
    intro c hc
    cases xs with
    | nil =>
      right
      exact ⟨x, List.mem_singleton.mpr rfl, hc⟩
    | cons y ys =>
      show c = '_' ∨ ∃ s ∈ x :: y :: ys, c ∈ s.data
      have hj : joinUnderscore (x :: y :: ys) = x ++ "_" ++ joinUnderscore (y :: ys) := rfl
      rw [hj, String.data_append, String.data_append, List.mem_append,
        List.mem_append] at hc
      rcases hc with (hc | hc) | hc
      · right; exact ⟨x, List.mem_cons_self _ _, hc⟩
      · left
        rw [List.mem_singleton] at hc
        exact hc
      · rcases ih c hc with hr | ⟨s, hs, hm⟩
        · left; exact hr
        · right; exact ⟨s, List.mem_cons_of_mem _ hs, hm⟩

theorem lastName_concat (l : List String) (x : String) :
    lastName (l ++ [x]) = x := by
  induction l with
  | nil => rfl
  | cons y ys ih =>
    rw [List.cons_append]
    cases h : ys ++ [x] with
    | nil => exact absurd h (by simp)
    | cons z zs =>
      show lastName (y :: z :: zs) = x
      rw [show lastName (y :: z :: zs) = lastName (z :: zs) from rfl, ← h, ih]

/-! ### Lemmas on the crawler -/

theorem lookupN_bumpName (m : List (String × Nat)) (k n : String) :
    lookupN (bumpName m k) n = lookupN m n + (if k = n then 1 else 0) := by
  induction m with
  | nil =>
    by_cases h : k = n
    · simp [bumpName, lookupN, h]
    · simp [bumpName, lookupN, h]
  | cons p ps ih =>
    by_cases hp : p.1 = k
    · rw [show bumpName (p :: ps) k = (p.1, p.2 + 1) :: ps from by
        simp [bumpName, hp]]
      by_cases hn : p.1 = n
      · have hkn : k = n := by rw [← hp, hn]
        simp [lookupN, hn, hkn]
      · have hkn : ¬ (k = n) := by rw [← hp]; exact fun hc => hn hc
        simp [lookupN, hn, hkn]
    · rw [show bumpName (p :: ps) k = p :: bumpName ps k from by
        simp [bumpName, hp]]
      by_cases hn : p.1 = n
      · have hkn : ¬ (k = n) := by
          intro hc; rw [hc] at hp; exact hp hn
        simp [lookupN, hn, hkn]
      · simp [lookupN, hn, ih]

theorem foldersAt_bumpDepth_ne (F : List (Nat × List (String × Nat)))
    (d : Nat) (k : String) (e : Nat) (h : ¬ (d = e)) :
    foldersAt (bumpDepth F d k) e = foldersAt F e := by
  induction F with
  | nil => simp [bumpDepth, foldersAt, h]
  | cons x xs ih =>
    by_cases hx : x.1 = d
    · rw [show bumpDepth (x :: xs) d k = (x.1, bumpName x.2 k) :: xs from by
        simp [bumpDepth, hx]]
      have hxe : ¬ (x.1 = e) := by rw [hx]; exact h
      simp [foldersAt, hxe]
    · rw [show bumpDepth (x :: xs) d k = x :: bumpDepth xs d k from by
        simp [bumpDepth, hx]]
      by_cases hxe : x.1 = e
      · simp [foldersAt, hxe]
      · simp [foldersAt, hxe, ih]

theorem lookupF_bumpDepth (F : List (Nat × List (String × Nat)))
    (d : Nat) (k : String) (e : Nat) (n : String) :
    lookupF (bumpDepth F d k) e n =
      lookupF F e n + (if d = e ∧ k = n then 1 else 0) := by
  induction F with
  | nil =>
    by_cases hde : d = e
    · subst hde
      unfold lookupF
      rw [show foldersAt (bumpDepth [] d k) d = bumpName [] k from by
        simp [bumpDepth, foldersAt]]
      rw [lookupN_bumpName]
      simp [foldersAt, lookupN]
    · unfold lookupF
      rw [show foldersAt (bumpDepth [] d k) e = [] from by
        simp [bumpDepth, foldersAt, hde]]
      simp [foldersAt, lookupN, hde]
  | cons x xs ih =>
    by_cases hx : x.1 = d
    · rw [show bumpDepth (x :: xs) d k = (x.1, bumpName x.2 k) :: xs from by
        simp [bumpDepth, hx]]
      by_cases hxe : x.1 = e
      · have hde : d = e := by rw [← hx, hxe]
        unfold lookupF
        simp only [foldersAt, if_pos hxe]
        rw [lookupN_bumpName]
        by_cases hkn : k = n
        · simp [hde, hkn]
        · simp [hde, hkn]
      · have hde : ¬ (d = e) := by rw [← hx]; exact hxe
        unfold lookupF
        simp [foldersAt, hxe, hde]
    · rw [show bumpDepth (x :: xs) d k = x :: bumpDepth xs d k from by
        simp [bumpDepth, hx]]
      by_cases hxe : x.1 = e
      · have hde : ¬ (d = e) := by
          intro hc; rw [← hc] at hxe; exact hx hxe
        unfold lookupF
        simp [foldersAt, hxe, hde]
      · unfold lookupF at ih ⊢
        simp [foldersAt, hxe, ih]

theorem lookupF_foldl_bumpDepth (d : Nat) (e : Nat) (n : String) :
    ∀ (names : List String) (F : List (Nat × List (String × Nat))),
      lookupF (names.foldl (fun F2 m => bumpDepth F2 d m) F) e n =
        lookupF F e n +
          (if d = e then (names.filter (fun m => m = n)).length else 0) := by
  intro names
  induction names with
  | nil => intro F; simp
  | cons m ms ih =>
    intro F
    rw [List.foldl_cons, ih, lookupF_bumpDepth]
    by_cases hde : d = e
    · by_cases hmn : m = n
      · simp [hde, hmn, List.filter_cons]
        omega
      · simp [hde, hmn, List.filter_cons]
    · simp [hde]

theorem crawlFile_folders (s : CrawlSt) (f : String) :
    (crawlFile s f).folders = s.folders := rfl

theorem crawlFiles_folders (maxF : Nat) :
    ∀ (fs : List String) (s : CrawlSt),
      (crawlFiles maxF fs s).folders = s.folders := by
  intro fs
  induction fs with
  | nil => intro s; rfl
  | cons f fs ih =>
    intro s
    unfold crawlFiles
    split
    · rfl
    · rw [ih, crawlFile_folders]

theorem crawlFiles_count_le (maxF : Nat) :
    ∀ (fs : List String) (s : CrawlSt),
      (crawlFiles maxF fs s).fileCount ≤ s.fileCount + fs.length := by
  intro fs
  induction fs with
  | nil =>
    intro s
    rw [show crawlFiles maxF [] s = s from rfl]
    simp
  | cons f fs ih =>
    intro s
    unfold crawlFiles
    split
    · simp
    · calc (crawlFiles maxF fs (crawlFile s f)).fileCount
          ≤ (crawlFile s f).fileCount + fs.length := ih _
        _ = s.fileCount + 1 + fs.length := rfl
        _ = s.fileCount + (f :: fs).length := by simp; omega

theorem countAtDepth_cons (x : WalkEntry) (l : List WalkEntry) (e : Nat)
    (n : String) :
    countAtDepth (x :: l) e n =
      (if x.1 = e then (x.2.1.filter (fun m => m = n)).length else 0) +
        countAtDepth l e n := by
  simp [countAtDepth]

theorem foldersAt_foldl_bumpDepth_ne (d e : Nat) (h : ¬ (d = e)) :
    ∀ (names : List String) (F : List (Nat × List (String × Nat))),
      foldersAt (names.foldl (fun F2 m => bumpDepth F2 d m) F) e =
        foldersAt F e := by
  intro names
  induction names with
  | nil => intro F; rfl
  | cons m ms ih =>
    intro F
    rw [List.foldl_cons, ih, foldersAt_bumpDepth_ne _ _ _ _ h]

theorem crawlWalk_foldersAt_lt2 (maxD maxF : Nat) :
    ∀ (w : List WalkEntry) (s : CrawlSt) (e : Nat), e < 2 →
      foldersAt (crawlWalk maxD maxF w s).folders e = foldersAt s.folders e := by
  intro w
  induction w with
  | nil => intro s e he; rfl
  | cons entry rest ih =>
    intro s e he
    obtain ⟨d, dirs, files⟩ := entry
    unfold crawlWalk
    split
    · rfl
    · split
      · exact ih s e he
      · rw [ih _ e he, crawlFiles_folders]
        by_cases h2 : 2 ≤ d
        · rw [if_pos h2]
          exact foldersAt_foldl_bumpDepth_ne d e (by omega) dirs s.folders
        · rw [if_neg h2]

theorem crawlWalk_census (maxD maxF : Nat) :
    ∀ (w : List WalkEntry) (s : CrawlSt) (e : Nat) (n : String),
      2 ≤ e → s.fileCount + sumFiles w < maxF →
      lookupF (crawlWalk maxD maxF w s).folders e n =
        lookupF s.folders e n +
          countAtDepth (w.filter (fun x => x.1 ≤ maxD)) e n := by
  intro w
  induction w with
  | nil =>
    intro s e n he hcap
    simp [crawlWalk, countAtDepth]
  | cons entry rest ih =>
    intro s e n he hcap
    obtain ⟨d, dirs, files⟩ := entry
    have hsum : sumFiles ((d, dirs, files) :: rest) =
        files.length + sumFiles rest := by
      simp [sumFiles]
    have hnb : ¬ (maxF ≤ s.fileCount) := by rw [hsum] at hcap; omega
    have hstep : crawlWalk maxD maxF ((d, dirs, files) :: rest) s =
        if maxD < d then crawlWalk maxD maxF rest s
        else crawlWalk maxD maxF rest (crawlFiles maxF files
          (if 2 ≤ d then
            { s with folders :=
              dirs.foldl (fun F2 m => bumpDepth F2 d m) s.folders }
           else s)) := by
      conv_lhs => rw [crawlWalk]
      rw [if_neg hnb]
    rw [hstep]
    by_cases hd : maxD < d
    · rw [if_pos hd]
      have hfilter : ((d, dirs, files) :: rest).filter (fun x => x.1 ≤ maxD) =
          rest.filter (fun x => x.1 ≤ maxD) := by
        rw [List.filter_cons, if_neg (by simp; omega)]
      rw [hfilter]
      exact ih s e n he (by rw [hsum] at hcap; omega)
    · rw [if_neg hd]
      set s1 := (if 2 ≤ d then
        { s with folders := dirs.foldl (fun F2 m => bumpDepth F2 d m) s.folders }
       else s) with hs1
      have hs1count : s1.fileCount = s.fileCount := by
        rw [hs1]; split <;> rfl
      have hcap2 : (crawlFiles maxF files s1).fileCount + sumFiles rest < maxF := by
        have hle := crawlFiles_count_le maxF files s1
        rw [hsum] at hcap
        omega
      rw [ih _ e n he hcap2, crawlFiles_folders]
      have hfilter : ((d, dirs, files) :: rest).filter (fun x => x.1 ≤ maxD) =
          (d, dirs, files) :: rest.filter (fun x => x.1 ≤ maxD) := by
        rw [List.filter_cons, if_pos (by simp; omega)]
      rw [hfilter, countAtDepth_cons]
      dsimp only
      by_cases h2 : 2 ≤ d
      · rw [hs1, if_pos h2]
        show lookupF (dirs.foldl (fun F2 m => bumpDepth F2 d m) s.folders) e n +
            countAtDepth (rest.filter (fun x => x.1 ≤ maxD)) e n = _
        rw [lookupF_foldl_bumpDepth, Nat.add_assoc]
      · rw [hs1, if_neg h2]
        have hde : ¬ (d = e) := by omega
        rw [if_neg hde, Nat.zero_add]

theorem setOne_append (k : String) :
    ∀ (m : List (String × Nat)), (∀ p ∈ m, ¬ (p.1 = k)) →
      setOne m k = m ++ [(k, 1)] := by
  intro m
  induction m with
  | nil => intro _; rfl
  | cons p ps ih =>
    intro h
    have hp : ¬ (p.1 = k) := h p (List.mem_cons_self _ _)
    rw [show setOne (p :: ps) k = p :: setOne ps k from by simp [setOne, hp]]
    rw [ih (fun q hq => h q (List.mem_cons_of_mem _ hq))]
    rfl

theorem foldl_setOne_nodup :
    ∀ (names : List String) (acc : List (String × Nat)), names.Nodup →
      (∀ n ∈ names, ∀ p ∈ acc, ¬ (p.1 = n)) →
      names.foldl (fun m n => setOne m n) acc =
        acc ++ names.map (fun n => (n, 1)) := by
  intro names
  induction names with
  | nil => intro acc _ _; simp
  | cons n ns ih =>
    intro acc hnd hdisj
    rw [List.foldl_cons,
      setOne_append n acc (fun p hp => hdisj n (List.mem_cons_self _ _) p hp)]
    rw [List.nodup_cons] at hnd
    rw [ih (acc ++ [(n, 1)]) hnd.2 ?_]
    · simp
    · intro m hm p hp
      rw [List.mem_append] at hp
      rcases hp with hp | hp
      · exact hdisj m (List.mem_cons_of_mem _ hm) p hp
      · rw [List.mem_singleton] at hp
        rw [hp]
        intro hc
        exact hnd.1 (by rw [← hc] at hm; exact hm)

theorem crawl_folders_eq (v : FSView) (maxD maxF : Nat) :
    (crawl_file_system v maxD maxF).folders =
      (crawlWalk maxD maxF v.walk
        ⟨[(0, [("base", 1)]),
          (1, v.baseDirs.foldl (fun m n => setOne m n) [])], [], [], 0⟩).folders :=
  rfl

theorem crawl_foldersAt_zero (v : FSView) (maxD maxF : Nat) :
    foldersAt (crawl_file_system v maxD maxF).folders 0 = [("base", 1)] := by
  rw [crawl_folders_eq, crawlWalk_foldersAt_lt2 maxD maxF v.walk _ 0 (by omega)]
  rfl

theorem crawl_foldersAt_one (v : FSView) (maxD maxF : Nat) :
    foldersAt (crawl_file_system v maxD maxF).folders 1 =
      v.baseDirs.foldl (fun m n => setOne m n) [] := by
  rw [crawl_folders_eq, crawlWalk_foldersAt_lt2 maxD maxF v.walk _ 1 (by omega)]
  rfl

theorem crawl_census (v : FSView) (maxD maxF e : Nat) (n : String)
    (hcap : sumFiles v.walk < maxF) (he : 2 ≤ e) :
    lookupF (crawl_file_system v maxD maxF).folders e n =
      countAtDepth (v.walk.filter (fun x => x.1 ≤ maxD)) e n := by
  have h := crawlWalk_census maxD maxF v.walk
    ⟨[(0, [("base", 1)]),
      (1, v.baseDirs.foldl (fun m n => setOne m n) [])], [], [], 0⟩
    e n he (by simpa using hcap)
  have h0 : ¬ ((0 : Nat) = e) := by omega
  have h1 : ¬ ((1 : Nat) = e) := by omega
  rw [show lookupF [(0, [("base", 1)]),
      (1, v.baseDirs.foldl (fun m n => setOne m n) [])] e n = 0 from by
    unfold lookupF
    rw [show foldersAt [(0, [("base", 1)]),
        (1, v.baseDirs.foldl (fun m n => setOne m n) [])] e = [] from by
      simp [foldersAt, h0, h1]]
    rfl] at h
  rw [Nat.zero_add] at h
  exact h

theorem mem_bumpName :
    ∀ (m : List (String × Nat)) (k n : String) (c : Nat),
      (n, c) ∈ bumpName m k → (∃ c2, (n, c2) ∈ m) ∨ n = k := by
  intro m
  induction m with
  | nil =>
    intro k n c h
    rw [show bumpName [] k = [(k, 1)] from rfl, List.mem_singleton] at h
    right
    exact congrArg Prod.fst h
  | cons p ps ih =>
    intro k n c h
    by_cases hp : p.1 = k
    · rw [show bumpName (p :: ps) k = (p.1, p.2 + 1) :: ps from by
        simp [bumpName, hp], List.mem_cons] at h
      rcases h with h | h
      · right
        rw [← hp]
        exact congrArg Prod.fst h
      · exact Or.inl ⟨c, List.mem_cons_of_mem _ h⟩
    · rw [show bumpName (p :: ps) k = p :: bumpName ps k from by
        simp [bumpName, hp], List.mem_cons] at h
      rcases h with h | h
      · exact Or.inl ⟨c, by rw [h]; exact List.mem_cons_self _ _⟩
      · rcases ih k n c h with ⟨c2, hc2⟩ | hr
        · exact Or.inl ⟨c2, List.mem_cons_of_mem _ hc2⟩
        · exact Or.inr hr

theorem nameInF_bumpDepth :
    ∀ (F : List (Nat × List (String × Nat))) (d : Nat) (k n : String),
      nameInF (bumpDepth F d k) n → nameInF F n ∨ n = k := by
  intro F
  induction F with
  | nil =>
    intro d k n h
    obtain ⟨e, he, c, hc⟩ := h
    rw [show bumpDepth [] d k = [(d, [(k, 1)])] from rfl,
      List.mem_singleton] at he
    rw [he] at hc
    rw [List.mem_singleton] at hc
    right
    exact congrArg Prod.fst hc
  | cons x xs ih =>
    intro d k n h
    obtain ⟨e, he, c, hc⟩ := h
    by_cases hx : x.1 = d
    · rw [show bumpDepth (x :: xs) d k = (x.1, bumpName x.2 k) :: xs from by
        simp [bumpDepth, hx], List.mem_cons] at he
      rcases he with he | he
      · rw [he] at hc
        rcases mem_bumpName x.2 k n c hc with ⟨c2, hc2⟩ | hr
        · exact Or.inl ⟨x, List.mem_cons_self _ _, c2, hc2⟩
        · exact Or.inr hr
      · exact Or.inl ⟨e, List.mem_cons_of_mem _ he, c, hc⟩
    · rw [show bumpDepth (x :: xs) d k = x :: bumpDepth xs d k from by
        simp [bumpDepth, hx], List.mem_cons] at he
      rcases he with he | he
      · exact Or.inl ⟨x, List.mem_cons_self _ _, c, by rw [← he]; exact hc⟩
      · rcases ih d k n ⟨e, he, c, hc⟩ with hl | hr
        · obtain ⟨e2, he2, c2, hc2⟩ := hl
          exact Or.inl ⟨e2, List.mem_cons_of_mem _ he2, c2, hc2⟩
        · exact Or.inr hr

theorem nameInF_foldl_bumpDepth (d : Nat) (n : String) :
    ∀ (names : List String) (F : List (Nat × List (String × Nat))),
      nameInF (names.foldl (fun F2 m => bumpDepth F2 d m) F) n →
        nameInF F n ∨ n ∈ names := by
  intro names
  induction names with
  | nil => intro F h; exact Or.inl h
  | cons m ms ih =>
    intro F h
    rw [List.foldl_cons] at h
    rcases ih (bumpDepth F d m) h with hl | hr
    · rcases nameInF_bumpDepth F d m n hl with hl2 | hr2
      · exact Or.inl hl2
      · exact Or.inr (by rw [hr2]; exact List.mem_cons_self _ _)
    · exact Or.inr (List.mem_cons_of_mem _ hr)

theorem crawlWalk_names (maxD maxF : Nat) :
    ∀ (w : List WalkEntry) (s : CrawlSt) (n : String),
      nameInF (crawlWalk maxD maxF w s).folders n →
        nameInF s.folders n ∨ ∃ e ∈ w, n ∈ e.2.1 := by
  intro w
  induction w with
  | nil => intro s n h; exact Or.inl h
  | cons entry rest ih =>
    intro s n h
    obtain ⟨d, dirs, files⟩ := entry
    unfold crawlWalk at h
    split at h
    · exact Or.inl h
    · split at h
      · rcases ih s n h with hl | ⟨e, he, hm⟩
        · exact Or.inl hl
        · exact Or.inr ⟨e, List.mem_cons_of_mem _ he, hm⟩
      · rcases ih _ n h with hl | ⟨e, he, hm⟩
        · rw [crawlFiles_folders] at hl
          by_cases h2 : 2 ≤ d
          · rw [if_pos h2] at hl
            rcases nameInF_foldl_bumpDepth d n dirs s.folders hl with hl2 | hr2
            · exact Or.inl hl2
            · exact Or.inr ⟨(d, dirs, files), List.mem_cons_self _ _, hr2⟩
          · rw [if_neg h2] at hl
            exact Or.inl hl
        · exact Or.inr ⟨e, List.mem_cons_of_mem _ he, hm⟩

theorem mem_setOne :
    ∀ (m : List (String × Nat)) (k n : String) (c : Nat),
      (n, c) ∈ setOne m k → (∃ c2, (n, c2) ∈ m) ∨ n = k := by
  intro m
  induction m with
  | nil =>
    intro k n c h
    rw [show setOne [] k = [(k, 1)] from rfl, List.mem_singleton] at h
    right
    exact congrArg Prod.fst h
  | cons p ps ih =>
    intro k n c h
    by_cases hp : p.1 = k
    · rw [show setOne (p :: ps) k = (k, 1) :: ps from by
        simp [setOne, hp], List.mem_cons] at h
      rcases h with h | h
      · right
        exact congrArg Prod.fst h
      · exact Or.inl ⟨c, List.mem_cons_of_mem _ h⟩
    · rw [show setOne (p :: ps) k = p :: setOne ps k from by
        simp [setOne, hp], List.mem_cons] at h
      rcases h with h | h
      · exact Or.inl ⟨c, by rw [h]; exact List.mem_cons_self _ _⟩
      · rcases ih k n c h with ⟨c2, hc2⟩ | hr
        · exact Or.inl ⟨c2, List.mem_cons_of_mem _ hc2⟩
        · exact Or.inr hr

theorem mem_foldl_setOne (n : String) (c : Nat) :
    ∀ (names : List String) (acc : List (String × Nat)),
      (n, c) ∈ names.foldl (fun m k => setOne m k) acc →
        (∃ c2, (n, c2) ∈ acc) ∨ n ∈ names := by
  intro names
  induction names with
  | nil => intro acc h; exact Or.inl ⟨c, h⟩
  | cons m ms ih =>
    intro acc h
    rw [List.foldl_cons] at h
    rcases ih (setOne acc m) h with ⟨c2, hc2⟩ | hr
    · rcases mem_setOne acc m n c2 hc2 with hl | hr2
      · exact Or.inl hl
      · exact Or.inr (by rw [hr2]; exact List.mem_cons_self _ _)
    · exact Or.inr (List.mem_cons_of_mem _ hr)

theorem crawl_names (v : FSView) (maxD maxF : Nat) (n : String)
    (h : nameInF (crawl_file_system v maxD maxF).folders n) :
    n = "base" ∨ n ∈ v.baseDirs ∨ ∃ e ∈ v.walk, n ∈ e.2.1 := by
  rw [crawl_folders_eq] at h
  rcases crawlWalk_names maxD maxF v.walk _ n h with hl | hr
  · obtain ⟨e, he, c, hc⟩ := hl
    rw [List.mem_cons] at he
    rcases he with he | he
    · rw [he] at hc
      rw [List.mem_singleton] at hc
      exact Or.inl (congrArg Prod.fst hc)
    · rw [List.mem_singleton] at he
      rw [he] at hc
      rcases mem_foldl_setOne n c v.baseDirs [] hc with ⟨c2, hc2⟩ | hr2
      · cases hc2
      · exact Or.inr (Or.inl hr2)
  · exact Or.inr (Or.inr hr)

/-! ### Lemmas on the suggester -/

theorem foldl_selStep_spec (sd : DocAttrs) (ce : List (String × Nat)) :
    ∀ (l : List (Nat × String × Nat)) (b : Best),
      l.foldl (selStep sd ce) b = b ∨
      ((l.foldl (selStep sd ce) b).isNew = false ∧
       b.score < (l.foldl (selStep sd ce) b).score ∧
       ∃ t ∈ l, (l.foldl (selStep sd ce) b).path = t.2.1 ∧
         (l.foldl (selStep sd ce) b).score =
           (folderScore sd ce t.1 t.2.1 t.2.2).1 ∧
         (l.foldl (selStep sd ce) b).evidence =
           (folderScore sd ce t.1 t.2.1 t.2.2).2) := by
  intro l
  induction l with
  | nil => intro b; left; rfl
  | cons t ts ih =>
    intro b
    rw [List.foldl_cons]
    by_cases hlt : b.score < (folderScore sd ce t.1 t.2.1 t.2.2).1
    · have hstep : selStep sd ce b t =
          ⟨t.2.1, (folderScore sd ce t.1 t.2.1 t.2.2).1,
           (folderScore sd ce t.1 t.2.1 t.2.2).2, false⟩ := by
        unfold selStep
        rw [if_pos hlt]
      rw [hstep]
      rcases ih ⟨t.2.1, (folderScore sd ce t.1 t.2.1 t.2.2).1,
          (folderScore sd ce t.1 t.2.1 t.2.2).2, false⟩ with heq |
          ⟨hnew, hgt, t2, ht2, hp, hs, he⟩
      · right
        rw [heq]
        exact ⟨rfl, hlt, t, List.mem_cons_self _ _, rfl, rfl, rfl⟩
      · right
        exact ⟨hnew, lt_trans hlt hgt, t2, List.mem_cons_of_mem _ ht2, hp, hs, he⟩
    · have hstep : selStep sd ce b t = b := by
        unfold selStep
        rw [if_neg hlt]
      rw [hstep]
      rcases ih b with heq | ⟨hnew, hgt, t2, ht2, hrest⟩
      · left; exact heq
      · right; exact ⟨hnew, hgt, t2, List.mem_cons_of_mem _ ht2, hrest⟩

theorem foldl_selStep_score (sd : DocAttrs) (ce : List (String × Nat)) :
    ∀ (l : List (Nat × String × Nat)) (b : Best),
      (l.foldl (selStep sd ce) b).score =
        l.foldl (fun m t => max m (folderScore sd ce t.1 t.2.1 t.2.2).1) b.score := by
  intro l
  induction l with
  | nil => intro b; rfl
  | cons t ts ih =>
    intro b
    rw [List.foldl_cons, List.foldl_cons, ih]
    by_cases hlt : b.score < (folderScore sd ce t.1 t.2.1 t.2.2).1
    · rw [show selStep sd ce b t =
          ⟨t.2.1, (folderScore sd ce t.1 t.2.1 t.2.2).1,
           (folderScore sd ce t.1 t.2.1 t.2.2).2, false⟩ from by
        unfold selStep; rw [if_pos hlt]]
      rw [max_eq_right (le_of_lt hlt)]
    · rw [show selStep sd ce b t = b from by unfold selStep; rw [if_neg hlt]]
      rw [max_eq_left (not_lt.mp hlt)]

theorem maxFolderScore_eq (sd : DocAttrs) (st : DirProfile) :
    maxFolderScore sd st = (selectBest sd st.common_extensions st.folders).score := by
  unfold maxFolderScore selectBest
  rw [foldl_selStep_score]

theorem selectBest_isNew (sd : DocAttrs) (ce : List (String × Nat))
    (F : List (Nat × List (String × Nat))) :
    (selectBest sd ce F).isNew = false ↔ 0 < (selectBest sd ce F).score := by
  unfold selectBest
  rcases foldl_selStep_spec sd ce (flatFolders F) ⟨"", 0, [], true⟩ with heq |
      ⟨hnew, hgt, _, _, _⟩
  · rw [heq]
    constructor
    · intro h; cases h
    · intro h; exact absurd h (by norm_num)
  · constructor
    · intro _; exact hgt
    · intro _; exact hnew

theorem foldl_ev_inv {α : Type} (P : Evidence → Prop) :
    ∀ (l : List α) (g : (Rat × List Evidence) → α → (Rat × List Evidence)),
      (∀ a x, (∀ e ∈ a.2, P e) → ∀ e ∈ (g a x).2, P e) →
      ∀ (init : Rat × List Evidence), (∀ e ∈ init.2, P e) →
      ∀ e ∈ (l.foldl g init).2, P e := by
  intro l
  induction l with
  | nil => intro g _ init hinit e he; exact hinit e he
  | cons x xs ih =>
    intro g hg init hinit e he
    rw [List.foldl_cons] at he
    exact ih g hg (g init x) (hg init x hinit) e he

theorem mem_append_one {α : Type} (l : List α) (x e : α)
    (h : e ∈ l ++ [x]) : e ∈ l ∨ e = x := by
  rw [List.mem_append, List.mem_singleton] at h
  exact h

theorem kwScore_evidence (sd : DocAttrs) (folderName : String) :
    ∀ e ∈ (kwScore sd folderName).2, e ≠ Evidence.noMatchingFolders := by
  unfold kwScore
  apply foldl_ev_inv
  · intro a x ha e he
    split at he
    · rcases mem_append_one a.2 _ e he with he2 | he2
      · exact ha e he2
      · rw [he2]; intro hc; cases hc
    · exact ha e he
  · intro e he; cases he

theorem semScore_evidence (sd : DocAttrs) (folderName : String)
    (a : Rat × List Evidence) (ha : ∀ e ∈ a.2, e ≠ Evidence.noMatchingFolders) :
    ∀ e ∈ (semScore sd folderName a).2, e ≠ Evidence.noMatchingFolders := by
  intro e he
  unfold semScore at he
  dsimp only at he
  split at he
  · rcases mem_append_one _ _ e he with he2 | he2
    · split at he2
      · rcases mem_append_one _ _ e he2 with he3 | he3
        · split at he3
          · rcases mem_append_one _ _ e he3 with he4 | he4
            · exact ha e he4
            · rw [he4]; intro hc; cases hc
          · exact ha e he3
        · rw [he3]; intro hc; cases hc
      · split at he2
        · rcases mem_append_one _ _ e he2 with he3 | he3
          · exact ha e he3
          · rw [he3]; intro hc; cases hc
        · exact ha e he2
    · rw [he2]; intro hc; cases hc
  · split at he
    · rcases mem_append_one _ _ e he with he2 | he2
      · split at he2
        · rcases mem_append_one _ _ e he2 with he3 | he3
          · exact ha e he3
          · rw [he3]; intro hc; cases hc
        · exact ha e he2
      · rw [he2]; intro hc; cases hc
    · split at he
      · rcases mem_append_one _ _ e he with he2 | he2
        · exact ha e he2
        · rw [he2]; intro hc; cases hc
      · exact ha e he

theorem entScore_evidence (sd : DocAttrs) (folderName : String)
    (a : Rat × List Evidence) (ha : ∀ e ∈ a.2, e ≠ Evidence.noMatchingFolders) :
    ∀ e ∈ (entScore sd folderName a).2, e ≠ Evidence.noMatchingFolders := by
  intro e he
  unfold entScore at he
  split at he
  · refine foldl_ev_inv _ sd.key_entities _ ?_ a ha e he
    intro a2 x ha2 e2 he2
    dsimp only at he2
    split at he2
    · rcases mem_append_one _ _ e2 he2 with he3 | he3
      · exact ha2 e2 he3
      · rw [he3]; intro hc; cases hc
    · exact ha2 e2 he2
  · exact ha e he

theorem extScore_evidence (sd : DocAttrs) (ce : List (String × Nat))
    (a : Rat × List Evidence) (ha : ∀ e ∈ a.2, e ≠ Evidence.noMatchingFolders) :
    ∀ e ∈ (extScore sd ce a).2, e ≠ Evidence.noMatchingFolders := by
  intro e he
  unfold extScore at he
  dsimp only at he
  split at he
  · split at he
    · rcases mem_append_one _ _ e he with he2 | he2
      · exact ha e he2
      · rw [he2]; intro hc; cases hc
    · exact ha e he
  · exact ha e he

theorem folderScore_evidence (sd : DocAttrs) (ce : List (String × Nat))
    (depth : Nat) (folderName : String) (folderCount : Nat) :
    ∀ e ∈ (folderScore sd ce depth folderName folderCount).2,
      e ≠ Evidence.noMatchingFolders := by
  unfold folderScore
  apply extScore_evidence
  show ∀ e ∈ (entScore sd folderName
    (semScore sd folderName (kwScore sd folderName))).2, _
  apply entScore_evidence
  apply semScore_evidence
  exact kwScore_evidence sd folderName

theorem selectPhase_isNew (sd : DocAttrs) (st : DirProfile) :
    ((selectPhase sd st).2.2 = false ↔ 5 ≤ maxFolderScore sd st) := by
  unfold selectPhase
  rw [maxFolderScore_eq]
  by_cases h5 : (selectBest sd st.common_extensions st.folders).score < 5
  · rw [if_pos h5]
    constructor
    · intro h; cases h
    · intro h; exact absurd h (not_le.mpr h5)
  · rw [if_neg h5]
    have h0 : (0 : Rat) < 5 := by norm_num
    constructor
    · intro _; exact not_lt.mp h5
    · intro _
      exact (selectBest_isNew sd st.common_extensions st.folders).mpr
        (lt_of_lt_of_le h0 (not_lt.mp h5))

theorem head_mem {α : Type} (l : List α) (x : α) (h : l.head? = some x) :
    x ∈ l := by
  cases l with
  | nil => cases h
  | cons y ys =>
    rw [show (y :: ys).head? = some y from rfl, Option.some.injEq] at h
    rw [← h]
    exact List.mem_cons_self _ _

theorem selectPhase_head (sd : DocAttrs) (st : DirProfile) :
    ((selectPhase sd st).2.1.head? = some Evidence.noMatchingFolders ↔
      maxFolderScore sd st < 5) := by
  unfold selectPhase
  rw [maxFolderScore_eq]
  by_cases h5 : (selectBest sd st.common_extensions st.folders).score < 5
  · rw [if_pos h5]
    simp only [List.head?_cons, Option.some.injEq]
    exact ⟨fun _ => h5, fun _ => trivial⟩
  · rw [if_neg h5]
    constructor
    · intro h
      exfalso
      have hmem := head_mem _ _ h
      unfold selectBest at hmem
      rcases foldl_selStep_spec sd st.common_extensions
          (flatFolders st.folders) ⟨"", 0, [], true⟩ with heq |
          ⟨_, _, t, _, _, _, hev⟩
      · rw [heq] at hmem
        cases hmem
      · rw [hev] at hmem
        exact folderScore_evidence sd st.common_extensions t.1 t.2.1 t.2.2 _ hmem rfl
    · intro h; exact absurd h h5

theorem selectPhase_existing (sd : DocAttrs) (st : DirProfile)
    (h : 5 ≤ maxFolderScore sd st) :
    (selectPhase sd st).2.2 = false ∧
      ∃ t ∈ flatFolders st.folders, (selectPhase sd st).1 = t.2.1 ∧
        (folderScore sd st.common_extensions t.1 t.2.1 t.2.2).1 =
          maxFolderScore sd st := by
  have h5 : ¬ ((selectBest sd st.common_extensions st.folders).score < 5) := by
    rw [maxFolderScore_eq] at h
    exact not_lt.mpr h
  have hphase : selectPhase sd st =
      ((selectBest sd st.common_extensions st.folders).path,
       (selectBest sd st.common_extensions st.folders).evidence,
       (selectBest sd st.common_extensions st.folders).isNew) := by
    unfold selectPhase
    rw [if_neg h5]
  rcases foldl_selStep_spec sd st.common_extensions
      (flatFolders st.folders) ⟨"", 0, [], true⟩ with heq |
      ⟨hnew, _, t, ht, hp, hs, _⟩
  · exfalso
    rw [maxFolderScore_eq] at h
    unfold selectBest at h
    rw [heq] at h
    exact absurd h (by norm_num)
  · constructor
    · rw [hphase]
      exact hnew
    · refine ⟨t, ht, ?_, ?_⟩
      · rw [hphase]
        exact hp
      · rw [maxFolderScore_eq]
        unfold selectBest
        exact hs.symm

theorem suggest_nontemporal (sd : DocAttrs) (st : DirProfile) (year : Nat)
    (h : strLower sd.intent ∉ temporalTypes) :
    suggest_filing_location sd st year = selectPhase sd st := by
  unfold suggest_filing_location
  rw [if_neg h]

theorem suggest_temporal (sd : DocAttrs) (st : DirProfile) (year : Nat)
    (h : strLower sd.intent ∈ temporalTypes) :
    suggest_filing_location sd st year =
      ((selectPhase sd st).1 ++ "/" ++ natToString year,
       (selectPhase sd st).2.1 ++
         [if yearTokenExists st.folders year then
            Evidence.yearExistingPattern (natToString year)
          else Evidence.yearNew (natToString year)],
       if yearTokenExists st.folders year then (selectPhase sd st).2.2
       else true) := by
  unfold suggest_filing_location
  rw [if_pos h]
  by_cases hy : yearTokenExists st.folders year
  · rw [if_pos hy, if_pos hy, if_pos hy]
  · rw [if_neg hy, if_neg hy, if_neg hy]

/-! ### Lemmas on the persistence writer -/

theorem readFiles_writeFiles_self :
    ∀ (files : List (List String × List Nat)) (p : List String) (c : List Nat),
      readFiles (writeFiles files p c) p = some c := by
  intro files
  induction files with
  | nil => intro p c; simp [writeFiles, readFiles]
  | cons q qs ih =>
    intro p c
    by_cases hq : q.1 = p
    · rw [show writeFiles (q :: qs) p c = (p, c) :: qs from by
        simp [writeFiles, hq]]
      simp [readFiles]
    · rw [show writeFiles (q :: qs) p c = q :: writeFiles qs p c from by
        simp [writeFiles, hq]]
      simp [readFiles, hq, ih]

theorem readFiles_writeFiles_ne :
    ∀ (files : List (List String × List Nat)) (p p2 : List String)
      (c : List Nat), ¬ (p = p2) →
      readFiles (writeFiles files p c) p2 = readFiles files p2 := by
  intro files
  induction files with
  | nil =>
    intro p p2 c hne
    simp [writeFiles, readFiles, hne]
  | cons q qs ih =>
    intro p p2 c hne
    by_cases hq : q.1 = p
    · rw [show writeFiles (q :: qs) p c = (p, c) :: qs from by
        simp [writeFiles, hq]]
      simp [readFiles, hne, hq]
    · rw [show writeFiles (q :: qs) p c = q :: writeFiles qs p c from by
        simp [writeFiles, hq]]
      by_cases hq2 : q.1 = p2
      · simp [readFiles, hq2]
      · simp [readFiles, hq2, ih _ _ _ hne]

theorem readFiles_any :
    ∀ (files : List (List String × List Nat)) (p : List String) (b : List Nat),
      readFiles files p = some b → files.any (fun q => q.1 = p) = true := by
  intro files
  induction files with
  | nil => intro p b h; cases h
  | cons q qs ih =>
    intro p b h
    unfold readFiles at h
    split at h
    · rename_i hq
      simp [hq]
    · rename_i hq
      simp only [List.any_cons, Bool.or_eq_true, decide_eq_true_eq]
      exact Or.inr (by simpa using ih p b h)

theorem resolveDots_step_no_dotdot :
    ∀ (l acc : List String), ".." ∉ l →
      l.foldl (fun a s => if s = ".." then a.dropLast else a ++ [s]) acc =
        acc ++ l := by
  intro l
  induction l with
  | nil => intro acc _; simp
  | cons s ss ih =>
    intro acc h
    have hs : ¬ (s = "..") := by
      intro hc; exact h (by rw [hc]; exact List.mem_cons_self _ _)
    rw [List.foldl_cons, if_neg hs,
      ih (acc ++ [s]) (fun hm => h (List.mem_cons_of_mem _ hm))]
    simp

theorem resolveDots_append_no_dotdot (l1 l2 : List String) (h : ".." ∉ l2) :
    resolveDots (l1 ++ l2) = resolveDots l1 ++ l2 := by
  unfold resolveDots
  rw [List.foldl_append]
  exact resolveDots_step_no_dotdot l2 _ h

theorem resolveDots_no_dotdot (l : List String) : ".." ∉ resolveDots l := by
  unfold resolveDots
  have hgen : ∀ (l2 acc : List String), ".." ∉ acc →
      ".." ∉ l2.foldl (fun a s => if s = ".." then a.dropLast else a ++ [s]) acc := by
    intro l2
    induction l2 with
    | nil => intro acc h; exact h
    | cons s ss ih =>
      intro acc h
      rw [List.foldl_cons]
      by_cases hs : s = ".."
      · rw [if_pos hs]
        refine ih _ (fun hm => h ?_)
        exact List.dropLast_subset acc hm
      · rw [if_neg hs]
        refine ih _ (fun hm => ?_)
        rcases mem_append_one _ _ _ hm with hm | hm
        · exact h hm
        · exact hs hm.symm
  exact hgen l [] (by intro h; cases h)

theorem resolveDots_idem (l : List String) :
    resolveDots (resolveDots l) = resolveDots l := by
  have h := resolveDots_append_no_dotdot [] (resolveDots l) (resolveDots_no_dotdot l)
  simpa using h

theorem collisionName_underscore (name : String) (now : PyDateTime) :
    '_' ∈ (collisionName name now).data := by
  unfold collisionName
  simp only [String.data_append, List.mem_append]
  exact Or.inl (Or.inr (tsFormat_underscore now))

theorem collisionName_ne_dotdot (name : String) (now : PyDateTime) :
    ¬ (collisionName name now = "..") := by
  intro h
  have hm := collisionName_underscore name now
  rw [h] at hm
  exact absurd hm (by decide)

theorem collisionName_length (name : String) (now : PyDateTime) :
    (collisionName name now).length =
      name.length + 1 + (tsFormat now).length := by
  unfold collisionName
  rw [String.length_append, String.length_append, String.length_append]
  have hsum : (pyStem name).length + (pySuffix name).length = name.length := by
    have h := stemSuffix_data name
    have h2 := congrArg List.length h
    rw [List.length_append] at h2
    exact h2
  have hu : ("_" : String).length = 1 := rfl
  omega

theorem collisionName_no_slash (name : String) (now : PyDateTime)
    (h : '/' ∉ name.data) : '/' ∉ (collisionName name now).data := by
  intro hm
  unfold collisionName at hm
  simp only [String.data_append, List.mem_append] at hm
  rcases hm with ((hm | hm) | hm) | hm
  · exact h (mem_stem_of_name name _ hm)
  · rw [List.mem_singleton] at hm
    cases hm
  · exact tsFormat_no_slash now hm
  · exact h (mem_suffix_of_name name _ hm)

theorem pyJoin_lastName (destR : List String) (filename : String)
    (l : List String) (s : String) (h : pySegs filename = l ++ [s]) :
    lastName (pyJoin destR filename) = s := by
  unfold pyJoin
  split
  · rw [h]
    exact lastName_concat l s
  · rw [h, ← List.append_assoc]
    exact lastName_concat (destR ++ l) s

theorem collisionName_ne_filename (destR : List String) (filename : String)
    (now : PyDateTime) :
    ¬ (collisionName (lastName (pyJoin destR filename)) now = filename) := by
  intro heq
  rcases List.eq_nil_or_concat (pySegs filename) with hnil | ⟨l, s, hcat⟩
  · have hchars := pySegs_nil_chars filename hnil
    have hm := collisionName_underscore (lastName (pyJoin destR filename)) now
    rw [heq] at hm
    rcases hchars '_' hm with hc | hc
    · cases hc
    · cases hc
  · rw [List.concat_eq_append] at hcat
    have hnm : lastName (pyJoin destR filename) = s :=
      pyJoin_lastName destR filename l s hcat
    have hs := mem_pySegs filename s (by rw [hcat]; simp)
    by_cases hslash : '/' ∈ filename.data
    · have hns : '/' ∉ (collisionName (lastName (pyJoin destR filename)) now).data := by
        rw [hnm]
        exact collisionName_no_slash s now hs.2.2
      rw [heq] at hns
      exact hns hslash
    · have hsplit := splitSlash_of_no_slash filename.data hslash
      have hone : pySegs filename = [filename] ∨ pySegs filename = [] := by
        unfold pySegs
        rw [hsplit]
        simp only [List.map_cons, List.map_nil, dataAsString, List.filter_cons]
        by_cases hf : filename = "" ∨ filename = "."
        · right
          rcases hf with hf | hf <;> simp [hf]
        · push_neg at hf
          left
          simp [hf.1, hf.2]
      rcases hone with hone | hone
      · rw [hone] at hcat
        cases l with
        | nil =>
          have hsf : s = filename := by simpa using hcat.symm
          have hlenf := congrArg String.length heq
          rw [collisionName_length, hnm, hsf] at hlenf
          have hts := tsFormat_pos_length now
          omega
        | cons x xs =>
          have hlen := congrArg List.length hcat
          rw [List.length_append] at hlen
          simp at hlen
      · rw [hone] at hcat
        exact absurd hcat.symm (by simp)

theorem mkdirStep_files (fs : PyFS) (destR : List String) :
    (mkdirStep fs destR).files = fs.files := by
  unfold mkdirStep
  split <;> rfl

theorem mkdirStep_exists (fs : PyFS) (destR : List String) :
    pathExists (mkdirStep fs destR) destR = true := by
  unfold mkdirStep
  split
  · rename_i h; exact h
  · unfold pathExists
    simp

theorem save_file_eq (fileContent : List Nat) (filename : String)
    (dest : List String) (now : PyDateTime) (fs : PyFS) :
    save_file fileContent filename dest now fs =
      (writeFile (mkdirStep fs (resolveDots dest))
         (targetPath (mkdirStep fs (resolveDots dest)) (resolveDots dest)
           filename now) fileContent,
       { success := true
         path := targetPath (mkdirStep fs (resolveDots dest)) (resolveDots dest)
           filename now
         size := fileContent.length
         renamed := decide (¬ (lastName (targetPath (mkdirStep fs (resolveDots dest))
           (resolveDots dest) filename now) = filename)) }) := rfl

theorem targetPath_collision (fs1 : PyFS) (destR : List String)
    (filename : String) (now : PyDateTime)
    (h : pathExists fs1 (pyJoin destR filename) = true) :
    targetPath fs1 destR filename now =
      destR ++ [collisionName (lastName (pyJoin destR filename)) now] := by
  unfold targetPath
  rw [if_pos h]

theorem collision_target_ne_requested (destR : List String) (filename : String)
    (now : PyDateTime) :
    ¬ (destR ++ [collisionName (lastName (pyJoin destR filename)) now] =
        pyJoin destR filename) := by
  intro h
  have h1 := lastName_concat destR (collisionName (lastName (pyJoin destR filename)) now)
  rw [h] at h1
  have h2 := congrArg String.length h1
  rw [collisionName_length] at h2
  have h3 := tsFormat_pos_length now
  omega

theorem pathExists_of_read (fs : PyFS) (p : List String) (b : List Nat)
    (h : readFile fs p = some b) : pathExists fs p = true := by
  unfold pathExists
  rw [readFiles_any fs.files p b h]
  rfl

/-! ### Support for the path-safety and year-token claims -/

theorem data_ne_nil (s : String) (h : s ≠ "") : s.data ≠ [] := by
  intro hc
  exact h (String.ext hc)

theorem startsSlash_false_of_no_slash (s : String) (h : '/' ∉ s.data) :
    startsSlash s = false := by
  unfold startsSlash
  apply decide_eq_false
  intro hc
  exact h (head_mem _ _ hc)

theorem startsSlash_slash_append (p0 y : String) (hne : p0 ≠ "")
    (hsl : '/' ∉ p0.data) : startsSlash (p0 ++ "/" ++ y) = false := by
  unfold startsSlash
  apply decide_eq_false
  intro hc
  rw [String.data_append, String.data_append] at hc
  cases hd : p0.data with
  | nil => exact data_ne_nil p0 hne hd
  | cons c cs =>
    rw [hd, List.cons_append, List.cons_append] at hc
    rw [show ((c :: ((cs ++ "/".data) ++ y.data)).head? = some c) from rfl,
      Option.some.injEq] at hc
    apply hsl
    rw [hd, ← hc]
    exact List.mem_cons_self _ _

theorem mem_flatFolders (F : List (Nat × List (String × Nat)))
    (t : Nat × String × Nat) (h : t ∈ flatFolders F) : nameInF F t.2.1 := by
  unfold flatFolders at h
  rw [List.mem_flatMap] at h
  obtain ⟨e, he, hm⟩ := h
  rw [List.mem_map] at hm
  obtain ⟨p, hp, heq⟩ := hm
  refine ⟨e, he, t.2.2, ?_⟩
  rw [← heq]
  exact hp

theorem crawl_valid_names (v : FSView) (maxD maxF : Nat)
    (hvalid : ValidView v) (n : String)
    (h : nameInF (crawl_file_system v maxD maxF).folders n) : validName n := by
  rcases crawl_names v maxD maxF n h with h1 | h1 | ⟨e, he, hm⟩
  · rw [h1]
    refine ⟨by decide, by decide, by decide, by decide⟩
  · exact hvalid.1 n h1
  · exact hvalid.2 e he n hm

theorem digit_string_props (n : Nat) :
    natToString n ≠ "" ∧ natToString n ≠ "." ∧ natToString n ≠ ".." ∧
      '/' ∉ (natToString n).data :=
  ⟨natToString_ne_empty n, natToString_ne_dot n, natToString_ne_dotdot n,
   natToString_no_slash n⟩

theorem yearName_check_false (name : String)
    (hnd : ∀ c ∈ name.data, c.isDigit = false) (year : Nat) :
    (strContains name (natToString year) ||
     (List.range' 2020 (year + 1 - 2020)).any
       (fun y => strContains name (natToString y))) = false := by
  have hone : ∀ m : Nat, strContains name (natToString m) = false := by
    intro m
    obtain ⟨c, hc⟩ := List.exists_mem_of_ne_nil _ (natToString_data_ne_nil m)
    refine strContains_eq_false c hc (fun hmem => ?_)
    have h1 := natToString_digits m c hc
    have h2 := hnd c hmem
    rw [h1] at h2
    cases h2
  rw [hone year]
  rw [List.any_eq_false.mpr (fun y _ => by rw [hone y]; intro h; cases h)]
  rfl

theorem yearTokenExists_false (F : List (Nat × List (String × Nat)))
    (h : ∀ e ∈ F, ∀ p ∈ e.2, ∀ c ∈ p.1.data, c.isDigit = false) (year : Nat) :
    yearTokenExists F year = false := by
  unfold yearTokenExists
  rw [List.any_eq_false]
  intro e he
  rw [Bool.not_eq_true, List.any_eq_false]
  intro p hp
  rw [Bool.not_eq_true]
  exact yearName_check_false p.1 (h e he p hp) year

theorem docKeywords_take_no_slash (sd : DocAttrs)
    (hkw : ∀ kw ∈ docKeywords sd, '/' ∉ kw.data) (s2 : String)
    (hs2 : s2 ∈ ((docKeywords sd).take 2).map pyTitle) : '/' ∉ s2.data := by
  rw [List.mem_map] at hs2
  obtain ⟨kw, hkwm, heq⟩ := hs2
  rw [← heq]
  exact pyTitle_no_slash kw (hkw kw (List.take_subset 2 (docKeywords sd) hkwm))

theorem synth_name_props (sd : DocAttrs)
    (hkw : ∀ kw ∈ docKeywords sd, '/' ∉ kw.data) :
    (joinUnderscore (((docKeywords sd).take 2).map pyTitle) ++ "_Documents") ≠ "" ∧
    (joinUnderscore (((docKeywords sd).take 2).map pyTitle) ++ "_Documents") ≠ "." ∧
    (joinUnderscore (((docKeywords sd).take 2).map pyTitle) ++ "_Documents") ≠ ".." ∧
    '/' ∉ (joinUnderscore (((docKeywords sd).take 2).map pyTitle) ++
      "_Documents").data := by
  have h10 : ("_Documents" : String).length = 10 := rfl
  refine ⟨?_, ?_, ?_, ?_⟩
  · intro h
    have h2 := congrArg String.length h
    rw [String.length_append, h10, show ("" : String).length = 0 from rfl] at h2
    omega
  · intro h
    have h2 := congrArg String.length h
    rw [String.length_append, h10, show ("." : String).length = 1 from rfl] at h2
    omega
  · intro h
    have h2 := congrArg String.length h
    rw [String.length_append, h10, show (".." : String).length = 2 from rfl] at h2
    omega
  · intro hm
    rw [String.data_append, List.mem_append] at hm
    rcases hm with hm | hm
    · rcases joinUnderscore_chars _ '/' hm with h | ⟨s2, hs2, hmem⟩
      · cases h
      · exact docKeywords_take_no_slash sd hkw s2 hs2 hmem
    · exact absurd hm (by decide)

theorem selectPhase_path_props (sd : DocAttrs) (v : FSView) (maxD maxF : Nat)
    (hvalid : ValidView v) (hkw : ∀ kw ∈ docKeywords sd, '/' ∉ kw.data) :
    (selectPhase sd (crawl_file_system v maxD maxF)).1 ≠ "" ∧
    (selectPhase sd (crawl_file_system v maxD maxF)).1 ≠ "." ∧
    (selectPhase sd (crawl_file_system v maxD maxF)).1 ≠ ".." ∧
    '/' ∉ (selectPhase sd (crawl_file_system v maxD maxF)).1.data := by
  unfold selectPhase
  by_cases h5 : (selectBest sd (crawl_file_system v maxD maxF).common_extensions
      (crawl_file_system v maxD maxF).folders).score < 5
  · rw [if_pos h5]
    dsimp only
    split
    · exact ⟨by decide, by decide, by decide, by decide⟩
    · split
      · exact ⟨by decide, by decide, by decide, by decide⟩
      · split
        · exact ⟨by decide, by decide, by decide, by decide⟩
        · split
          · exact ⟨by decide, by decide, by decide, by decide⟩
          · split
            · exact synth_name_props sd hkw
            · exact ⟨by decide, by decide, by decide, by decide⟩
  · rw [if_neg h5]
    dsimp only
    rcases foldl_selStep_spec sd (crawl_file_system v maxD maxF).common_extensions
        (flatFolders (crawl_file_system v maxD maxF).folders)
        ⟨"", 0, [], true⟩ with heq | ⟨_, _, t, ht, hp, _, _⟩
    · exfalso
      unfold selectBest at h5
      rw [heq] at h5
      exact h5 (by norm_num)
    · have hval := crawl_valid_names v maxD maxF hvalid t.2.1
        (mem_flatFolders _ t ht)
      have hpath : (selectBest sd
          (crawl_file_system v maxD maxF).common_extensions
          (crawl_file_system v maxD maxF).folders).path = t.2.1 := hp
      rw [hpath]
      exact ⟨hval.1, hval.2.1, hval.2.2.1, hval.2.2.2⟩

theorem pathSafe_of_props (p : String)
    (h : p ≠ "" ∧ p ≠ "." ∧ p ≠ ".." ∧ '/' ∉ p.data) : pathSafe p := by
  refine ⟨startsSlash_false_of_no_slash p h.2.2.2, ?_⟩
  rw [pySegs_single p h.2.2.2 h.1 h.2.1]
  intro hm
  rw [List.mem_singleton] at hm
  exact h.2.2.1 hm.symm

theorem pathSafe_with_year (p : String) (year : Nat)
    (h : p ≠ "" ∧ p ≠ "." ∧ p ≠ ".." ∧ '/' ∉ p.data) :
    pathSafe (p ++ "/" ++ natToString year) := by
  refine ⟨startsSlash_slash_append p _ h.1 h.2.2.2, ?_⟩
  rw [pySegs_append_slash, pySegs_single p h.2.2.2 h.1 h.2.1,
    pySegs_single _ (natToString_no_slash year) (natToString_ne_empty year)
      (natToString_ne_dot year)]
  intro hm
  rw [List.cons_append, List.nil_append, List.mem_cons, List.mem_singleton] at hm
  rcases hm with hm | hm
  · exact h.2.2.1 hm.symm
  · exact natToString_ne_dotdot year hm.symm

/-! ### The claims -/

/-- C9: every crawl inserts a synthetic depth-0 entry named "base" with
count 1 into the folder census, and suggest_filing_location scores it like
a real folder: for the document with non-temporal intent "misc" and summary
"Just the base case", crawling an empty base directory yields the literal
suggested path "base" with is_new_folder = false (via a keyword match on
the synthetic entry), although no subfolder of that name exists. -/
theorem crawl_base_entry_and_scoring :
    (∀ (v : FSView) (maxD maxF : Nat),
      foldersAt (crawl_file_system v maxD maxF).folders 0 = [("base", 1)]) ∧
    suggest_filing_location sdBase (crawl_file_system emptyView 3 100) 2026 =
      ("base", [Evidence.keywordMatch "base" "base"], false) := by
  constructor
  · intro v maxD maxF
    exact crawl_foldersAt_zero v maxD maxF
  · with_unfolding_all decide

/-- C8: for a base directory with exactly the given immediate subfolders
and no deeper nesting, and for every max_depth and max_files, the depth-1
census holds exactly those subfolder names, each with count 1. -/
theorem depth1_census_complete (v : FSView) (maxD maxF : Nat)
    (hnodup : v.baseDirs.Nodup) (hshallow : ∀ e ∈ v.walk, e.1 ≤ 1) :
    foldersAt (crawl_file_system v maxD maxF).folders 1 =
      v.baseDirs.map (fun n => (n, 1)) := by
  rw [crawl_foldersAt_one]
  have h := foldl_setOne_nodup v.baseDirs [] hnodup
    (by intro n _ p hp; cases hp)
  rw [h]
  rfl

/-- Witness for C8 at the two-subfolder fixture. -/
theorem depth1_census_complete_witness :
    viewTwo.baseDirs.Nodup ∧ (∀ e ∈ viewTwo.walk, e.1 ≤ 1) ∧
    foldersAt (crawl_file_system viewTwo 3 100).folders 1 =
      [("X", 1), ("Y", 1)] :=
  ⟨by decide, by decide,
   (depth1_census_complete viewTwo 3 100 (by decide) (by decide)).trans (by decide)⟩

/-- C4 counterexample: in the tree base/A/B, the walk visits B as a
directory node at relative depth 2 (record (1, ["B"], []) of the walk), yet
the crawl records no counter for "B" at depth 2 — the walk only counts
child names of roots at depth two or more, so depth-2 nodes are never
counted and the claim's "counter incremented at that node's depth" fails. -/
theorem walk_depth2_uncounted_cex :
    (1, ["B"], []) ∈ viewAB.walk ∧
    lookupF (crawl_file_system viewAB 3 100).folders 2 "B" = 0 := by
  constructor
  · decide
  · decide

/-- C4 amended: during the walk phase, for every depth d at least 2, the
counter of a name at depth d equals the number of occurrences of that name
among the child-directory lists of the visited roots at depth d (roots
deeper than max_depth skipped), provided the file cap is never reached; so
a directory node at depth e is counted, at key e - 1, exactly when e is at
least 3, the same name under multiple parents accumulates, and depth-1 and
depth-2 nodes are never counted by the walk. -/
theorem walk_census_at_parent_depth (v : FSView) (maxD maxF d : Nat)
    (n : String) (hcap : sumFiles v.walk < maxF) (hd : 2 ≤ d) :
    lookupF (crawl_file_system v maxD maxF).folders d n =
      countAtDepth (v.walk.filter (fun e => e.1 ≤ maxD)) d n :=
  crawl_census v maxD maxF d n hcap hd

/-- Witness for C4's amended census at the base/a/b/memo_files fixture. -/
theorem walk_census_at_parent_depth_witness :
    sumFiles viewMemo.walk < 100 ∧
    lookupF (crawl_file_system viewMemo 3 100).folders 2 "memo_files" =
      countAtDepth (viewMemo.walk.filter (fun e => e.1 ≤ 3)) 2 "memo_files" ∧
    countAtDepth (viewMemo.walk.filter (fun e => e.1 ≤ 3)) 2 "memo_files" = 1 :=
  ⟨by decide,
   walk_census_at_parent_depth viewMemo 3 100 2 "memo_files" (by decide) (by decide),
   by decide⟩

/-- C2: for every crawled profile with at least one discovered folder and
every document with a non-temporal intent, a best additive score of exactly
5 selects an existing folder (is_new_folder = false, the suggested path is
a discovered folder achieving score 5), and the synthesis branch — marked
by the prepended no-matching-folders evidence flag — runs exactly when the
best score is strictly below 5. -/
theorem threshold_boundary_exact_five (sd : DocAttrs) (v : FSView)
    (maxD maxF year : Nat)
    (hT : strLower sd.intent ∉ temporalTypes)
    (hne : flatFolders (crawl_file_system v maxD maxF).folders ≠ []) :
    (maxFolderScore sd (crawl_file_system v maxD maxF) = 5 →
      (suggest_filing_location sd (crawl_file_system v maxD maxF) year).2.2 =
        false ∧
      ∃ t ∈ flatFolders (crawl_file_system v maxD maxF).folders,
        (suggest_filing_location sd (crawl_file_system v maxD maxF) year).1 =
          t.2.1 ∧
        (folderScore sd (crawl_file_system v maxD maxF).common_extensions
          t.1 t.2.1 t.2.2).1 = 5) ∧
    ((suggest_filing_location sd (crawl_file_system v maxD maxF) year).2.1.head? =
        some Evidence.noMatchingFolders ↔
      maxFolderScore sd (crawl_file_system v maxD maxF) < 5) := by
  rw [suggest_nontemporal sd _ year hT]
  constructor
  · intro h5
    obtain ⟨hnew, t, ht, hp, hs⟩ :=
      selectPhase_existing sd (crawl_file_system v maxD maxF) (le_of_eq h5.symm)
    exact ⟨hnew, t, ht, hp, by rw [hs, h5]⟩
  · exact selectPhase_head sd _

/-- Witness for C2 at a fixture whose best score is exactly 5 (keyword
match +5, frequency +1, depth penalty -1 at depth 2). -/
theorem threshold_boundary_exact_five_witness :
    strLower sdMemo.intent ∉ temporalTypes ∧
    maxFolderScore sdMemo (crawl_file_system viewMemo 3 100) = 5 ∧
    ((suggest_filing_location sdMemo (crawl_file_system viewMemo 3 100) 2026).2.2 =
      false ∧
     ∃ t ∈ flatFolders (crawl_file_system viewMemo 3 100).folders,
       (suggest_filing_location sdMemo (crawl_file_system viewMemo 3 100) 2026).1 =
         t.2.1 ∧
       (folderScore sdMemo (crawl_file_system viewMemo 3 100).common_extensions
         t.1 t.2.1 t.2.2).1 = 5) :=
  ⟨by decide, by with_unfolding_all decide,
   (threshold_boundary_exact_five sdMemo viewMemo 3 100 2026 (by decide)
     (by decide)).1 (by with_unfolding_all decide)⟩

/-- C1 counterexample: a document whose intent is the string "../secret",
filed against the crawl of an empty base directory, synthesizes the
suggested path "../Secret_Documents", which contains a ".." segment — the
claimed path-safety invariant fails for raw keyword-derived names. -/
theorem suggest_unsafe_path_cex :
    (suggest_filing_location sdDotDot (crawl_file_system emptyView 3 100)
      2026).1 = "../Secret_Documents" ∧
    ¬ pathSafe (suggest_filing_location sdDotDot
      (crawl_file_system emptyView 3 100) 2026).1 := by
  constructor
  · with_unfolding_all decide
  · with_unfolding_all decide

/-- C1 amended: for every document whose derived keyword list (lowered
intent, category, summary words, string entities) contains no slash
character, and every crawled profile of a filesystem whose directory names
are OS-legal entry names, the suggested path never starts with a slash and
contains no ".." segment — including when the score falls below the
threshold and a new folder name is synthesized. -/
theorem suggest_path_safe_of_clean_keywords (sd : DocAttrs) (v : FSView)
    (maxD maxF year : Nat) (hvalid : ValidView v)
    (hkw : ∀ kw ∈ docKeywords sd, '/' ∉ kw.data) :
    pathSafe (suggest_filing_location sd (crawl_file_system v maxD maxF)
      year).1 := by
  have hprops := selectPhase_path_props sd v maxD maxF hvalid hkw
  by_cases hT : strLower sd.intent ∈ temporalTypes
  · rw [suggest_temporal sd _ year hT]
    exact pathSafe_with_year _ year hprops
  · rw [suggest_nontemporal sd _ year hT]
    exact pathSafe_of_props _ hprops

/-- Witness for C1's amended safety at the memo fixture. -/
theorem suggest_path_safe_witness :
    ValidView viewMemo ∧ (∀ kw ∈ docKeywords sdMemo, '/' ∉ kw.data) ∧
    pathSafe (suggest_filing_location sdMemo (crawl_file_system viewMemo 3 100)
      2026).1 :=
  ⟨by decide, by decide,
   suggest_path_safe_of_clean_keywords sdMemo viewMemo 3 100 2026
     (by decide) (by decide)⟩

/-- C3 counterexample: an invoice filed against a crawled profile whose
only subfolder is invoices_2023 (which carries a year token) is matched as
an existing folder; the year 2026 is appended to the path, yet the returned
is_new_folder is false — the source forces is_new_folder to true only in
the branch without an existing year token, so "always returns
is_new_folder = true" fails. -/
theorem temporal_isnew_false_cex :
    strLower sdInvoice.intent ∈ temporalTypes ∧
    yearTokenExists (crawl_file_system viewYear 3 100).folders 2026 = true ∧
    suggest_filing_location sdInvoice (crawl_file_system viewYear 3 100)
      2026 =
      ("invoices_2023/2026",
       [Evidence.keywordMatch "invoice" "invoices_2023",
        Evidence.financialMatch "invoices_2023",
        Evidence.yearExistingPattern "2026"], false) := by
  refine ⟨by decide, by decide, ?_⟩
  with_unfolding_all decide

/-- C3 amended: for every temporal-intent document, the current year is
appended as a final path segment, and the result reports an existing
folder (is_new_folder = false) exactly when some discovered folder name
carries a year token AND the selection phase matched an existing folder
with score at least 5; when no folder name carries a year token,
is_new_folder is forced to true (only the evidence wording also differs
between the two branches). -/
theorem temporal_year_augmentation (sd : DocAttrs) (st : DirProfile)
    (year : Nat) (hT : strLower sd.intent ∈ temporalTypes) :
    (suggest_filing_location sd st year).1 =
      (selectPhase sd st).1 ++ "/" ++ natToString year ∧
    ((suggest_filing_location sd st year).2.2 = false ↔
      (yearTokenExists st.folders year = true ∧
        5 ≤ maxFolderScore sd st)) := by
  rw [suggest_temporal sd st year hT]
  refine ⟨rfl, ?_⟩
  dsimp only
  by_cases hy : yearTokenExists st.folders year = true
  · rw [if_pos hy]
    rw [selectPhase_isNew]
    constructor
    · intro h; exact ⟨hy, h⟩
    · intro h; exact h.2
  · rw [if_neg hy]
    constructor
    · intro h; cases h
    · intro h; exact absurd h.1 hy

/-- Witness for C3's amended behaviour at the invoices_2023 fixture. -/
theorem temporal_year_augmentation_witness :
    strLower sdInvoice.intent ∈ temporalTypes ∧
    ((suggest_filing_location sdInvoice (crawl_file_system viewYear 3 100)
        2026).1 =
      (selectPhase sdInvoice (crawl_file_system viewYear 3 100)).1 ++ "/" ++
        natToString 2026 ∧
     ((suggest_filing_location sdInvoice (crawl_file_system viewYear 3 100)
        2026).2.2 = false ↔
      (yearTokenExists (crawl_file_system viewYear 3 100).folders 2026 = true ∧
        5 ≤ maxFolderScore sdInvoice (crawl_file_system viewYear 3 100)))) :=
  ⟨by decide,
   temporal_year_augmentation sdInvoice (crawl_file_system viewYear 3 100)
     2026 (by decide)⟩

/-- C5 counterexample: on the end-to-end fixture (one subfolder
Financial_Documents holding three .pdf files; an invoice for Acme Corp with
file_type "pdf"), the winning folder's score is 17/2 = 8.5, not at least
11: the +3 extension bonus never fires because the undotted file_type "pdf"
is compared against histogram keys that carry the dot (".pdf"). -/
theorem acme_fixture_score_cex :
    maxFolderScore sdAcme (crawl_file_system viewAcme 3 100) = 17 / 2 ∧
    ¬ (11 ≤ maxFolderScore sdAcme (crawl_file_system viewAcme 3 100)) := by
  constructor
  · with_unfolding_all decide
  · with_unfolding_all decide

/-- C5 amended: on the end-to-end fixture the winning score is 8.5
(8 semantic + 1 frequency - 0.5 depth, with no extension bonus because
"pdf" lacks the dot the histogram keys carry), and for every current year
the suggestion is Financial_Documents/(that year) with is_new_folder =
true and the financial-match evidence followed by the new-year-folder
evidence. -/
theorem acme_fixture_behaviour (year : Nat) :
    maxFolderScore sdAcme (crawl_file_system viewAcme 3 100) = 17 / 2 ∧
    suggest_filing_location sdAcme (crawl_file_system viewAcme 3 100) year =
      ("Financial_Documents" ++ "/" ++ natToString year,
       [Evidence.financialMatch "Financial_Documents",
        Evidence.yearNew (natToString year)], true) := by
  constructor
  · with_unfolding_all decide
  · have hphase : selectPhase sdAcme (crawl_file_system viewAcme 3 100) =
        ("Financial_Documents",
         [Evidence.financialMatch "Financial_Documents"], false) := by
      with_unfolding_all decide
    have hy : yearTokenExists (crawl_file_system viewAcme 3 100).folders
        year = false := by
      apply yearTokenExists_false
      rw [show (crawl_file_system viewAcme 3 100).folders =
        [(0, [("base", 1)]), (1, [("Financial_Documents", 1)])] from by decide]
      decide
    have hcond : ¬ (yearTokenExists (crawl_file_system viewAcme 3 100).folders
        year = true) := by
      rw [hy]; intro h; cases h
    rw [suggest_temporal sdAcme _ year (by decide), hphase, if_neg hcond,
      if_neg hcond]
    rfl

/-- C6: whenever the requested path destination/filename already holds a
file, save_file diverts the write to the timestamp-suffixed target
(stem)_(YYYYMMDD_HHMMSS)(ext) beside the destination, reports renamed =
true and a path different from the requested one, and leaves the
pre-existing file at the requested path byte-for-byte unchanged. -/
theorem save_collision_renames (content : List Nat) (filename : String)
    (dest : List String) (now : PyDateTime) (fs : PyFS) (b0 : List Nat)
    (hex : readFile fs (pyJoin (resolveDots dest) filename) = some b0) :
    (save_file content filename dest now fs).2.renamed = true ∧
    (save_file content filename dest now fs).2.path =
      resolveDots dest ++
        [collisionName (lastName (pyJoin (resolveDots dest) filename)) now] ∧
    ¬ ((save_file content filename dest now fs).2.path =
        pyJoin (resolveDots dest) filename) ∧
    readFile (save_file content filename dest now fs).1
      (pyJoin (resolveDots dest) filename) = some b0 := by
  have hfiles := mkdirStep_files fs (resolveDots dest)
  have hpe : pathExists (mkdirStep fs (resolveDots dest))
      (pyJoin (resolveDots dest) filename) = true := by
    unfold pathExists
    rw [hfiles, readFiles_any fs.files _ b0 hex]
    rfl
  have htp := targetPath_collision (mkdirStep fs (resolveDots dest))
    (resolveDots dest) filename now hpe
  rw [save_file_eq]
  dsimp only
  refine ⟨?_, ?_, ?_, ?_⟩
  · rw [htp, lastName_concat]
    exact decide_eq_true (collisionName_ne_filename (resolveDots dest)
      filename now)
  · exact htp
  · rw [htp]
    exact collision_target_ne_requested (resolveDots dest) filename now
  · unfold readFile writeFile
    dsimp only
    rw [htp, readFiles_writeFiles_ne _ _ _ _
      (collision_target_ne_requested (resolveDots dest) filename now), hfiles]
    exact hex

/-- Witness for C6 at a destination already holding x.pdf. -/
theorem save_collision_renames_witness :
    readFile fsOne (pyJoin (resolveDots ["home", "docs"]) "x.pdf") =
      some [1, 2, 3] ∧
    ((save_file [9, 9] "x.pdf" ["home", "docs"] tsFix fsOne).2.renamed = true ∧
     (save_file [9, 9] "x.pdf" ["home", "docs"] tsFix fsOne).2.path =
       resolveDots ["home", "docs"] ++
         [collisionName (lastName (pyJoin (resolveDots ["home", "docs"])
           "x.pdf")) tsFix] ∧
     ¬ ((save_file [9, 9] "x.pdf" ["home", "docs"] tsFix fsOne).2.path =
         pyJoin (resolveDots ["home", "docs"]) "x.pdf") ∧
     readFile (save_file [9, 9] "x.pdf" ["home", "docs"] tsFix fsOne).1
       (pyJoin (resolveDots ["home", "docs"]) "x.pdf") = some [1, 2, 3]) :=
  ⟨by decide,
   save_collision_renames [9, 9] "x.pdf" ["home", "docs"] tsFix fsOne
     [1, 2, 3] (by decide)⟩

/-- C10: the collision-existence check happens only once, on the
originally requested path: when the timestamp-suffixed target also already
holds a file, save_file overwrites that file in place with the new bytes
and still reports success = true and renamed = true (and the file at the
originally requested path stays unchanged). -/
theorem save_double_collision_overwrite (content : List Nat)
    (filename : String) (dest : List String) (now : PyDateTime) (fs : PyFS)
    (b0 b1 : List Nat)
    (hex : readFile fs (pyJoin (resolveDots dest) filename) = some b0)
    (hex2 : readFile fs (resolveDots dest ++
      [collisionName (lastName (pyJoin (resolveDots dest) filename)) now]) =
      some b1) :
    (save_file content filename dest now fs).2.success = true ∧
    (save_file content filename dest now fs).2.renamed = true ∧
    (save_file content filename dest now fs).2.path =
      resolveDots dest ++
        [collisionName (lastName (pyJoin (resolveDots dest) filename)) now] ∧
    readFile (save_file content filename dest now fs).1
      (resolveDots dest ++
        [collisionName (lastName (pyJoin (resolveDots dest) filename)) now]) =
      some content ∧
    readFile (save_file content filename dest now fs).1
      (pyJoin (resolveDots dest) filename) = some b0 := by
  have hfiles := mkdirStep_files fs (resolveDots dest)
  have hpe : pathExists (mkdirStep fs (resolveDots dest))
      (pyJoin (resolveDots dest) filename) = true := by
    unfold pathExists
    rw [hfiles, readFiles_any fs.files _ b0 hex]
    rfl
  have htp := targetPath_collision (mkdirStep fs (resolveDots dest))
    (resolveDots dest) filename now hpe
  rw [save_file_eq]
  dsimp only
  refine ⟨rfl, ?_, htp, ?_, ?_⟩
  · rw [htp, lastName_concat]
    exact decide_eq_true (collisionName_ne_filename (resolveDots dest)
      filename now)
  · unfold readFile writeFile
    dsimp only
    rw [htp]
    exact readFiles_writeFiles_self _ _ _
  · unfold readFile writeFile
    dsimp only
    rw [htp, readFiles_writeFiles_ne _ _ _ _
      (collision_target_ne_requested (resolveDots dest) filename now), hfiles]
    exact hex

/-- Witness for C10 at a destination already holding both x.pdf and the
timestamp-suffixed variant. -/
theorem save_double_collision_overwrite_witness :
    readFile fsTwo (pyJoin (resolveDots ["d"]) "x.pdf") = some [1] ∧
    readFile fsTwo (resolveDots ["d"] ++
      [collisionName (lastName (pyJoin (resolveDots ["d"]) "x.pdf")) tsFix]) =
      some [2] ∧
    ((save_file [7, 7] "x.pdf" ["d"] tsFix fsTwo).2.success = true ∧
     (save_file [7, 7] "x.pdf" ["d"] tsFix fsTwo).2.renamed = true ∧
     (save_file [7, 7] "x.pdf" ["d"] tsFix fsTwo).2.path =
       resolveDots ["d"] ++
         [collisionName (lastName (pyJoin (resolveDots ["d"]) "x.pdf")) tsFix] ∧
     readFile (save_file [7, 7] "x.pdf" ["d"] tsFix fsTwo).1
       (resolveDots ["d"] ++
         [collisionName (lastName (pyJoin (resolveDots ["d"]) "x.pdf")) tsFix]) =
       some [7, 7] ∧
     readFile (save_file [7, 7] "x.pdf" ["d"] tsFix fsTwo).1
       (pyJoin (resolveDots ["d"]) "x.pdf") = some [1]) :=
  ⟨by decide, by decide,
   save_double_collision_overwrite [7, 7] "x.pdf" ["d"] tsFix fsTwo [1] [2]
     (by decide) (by decide)⟩

/-- C7 counterexample: a save_file call with the absolute filename
"/tmp/evil.pdf" succeeds and returns the path tmp/evil.pdf from the root —
pathlib's join discards the base when the right operand is absolute — which
is not under the supplied destination directory home/user/docs. -/
theorem save_escapes_destination_cex :
    (save_file [] "/tmp/evil.pdf" ["home", "user", "docs"] tsFix
      ⟨[], []⟩).2.success = true ∧
    ¬ strictlyUnder
        (resolveDots (save_file [] "/tmp/evil.pdf" ["home", "user", "docs"]
          tsFix ⟨[], []⟩).2.path)
        (resolveDots ["home", "user", "docs"]) := by
  constructor
  · rfl
  · rw [show (save_file [] "/tmp/evil.pdf" ["home", "user", "docs"] tsFix
      ⟨[], []⟩).2.path = ["tmp", "evil.pdf"] from by decide]
    intro hcon
    obtain ⟨r, hr, heq⟩ := hcon
    have hlen := congrArg List.length heq
    rw [List.length_append] at hlen
    have : resolveDots ["tmp", "evil.pdf"] = ["tmp", "evil.pdf"] := by decide
    rw [this] at hlen
    have h3 : (resolveDots ["home", "user", "docs"]).length = 3 := by decide
    rw [h3] at hlen
    have : r.length = 0 := by
      have h2 : (["tmp", "evil.pdf"] : List String).length = 2 := rfl
      omega
    exact hr (List.eq_nil_of_length_eq_zero this)

/-- C7 amended: for every save_file call whose filename is relative (does
not start with a slash) and has no ".." component, the resolved returned
path lies strictly under the resolved supplied destination directory. -/
theorem save_path_under_destination (content : List Nat) (filename : String)
    (dest : List String) (now : PyDateTime) (fs : PyFS)
    (habs : startsSlash filename = false)
    (hdd : ".." ∉ pySegs filename) :
    strictlyUnder
      (resolveDots (save_file content filename dest now fs).2.path)
      (resolveDots dest) := by
  rw [save_file_eq]
  dsimp only
  have hjoin : pyJoin (resolveDots dest) filename =
      resolveDots dest ++ pySegs filename := by
    unfold pyJoin
    rw [if_neg (by rw [habs]; intro h; cases h)]
  unfold targetPath
  split
  · have hnn : ".." ∉ [collisionName (lastName (pyJoin (resolveDots dest)
        filename)) now] := by
      intro hm
      rw [List.mem_singleton] at hm
      exact collisionName_ne_dotdot _ now hm.symm
    rw [resolveDots_append_no_dotdot _ _ hnn, resolveDots_idem]
    exact ⟨_, by simp, rfl⟩
  · rename_i hnc
    have hsegs : pySegs filename ≠ [] := by
      intro h0
      apply hnc
      rw [hjoin, h0, List.append_nil]
      exact mkdirStep_exists fs (resolveDots dest)
    rw [hjoin, resolveDots_append_no_dotdot _ _ hdd, resolveDots_idem]
    exact ⟨pySegs filename, hsegs, rfl⟩

/-- Witness for C7's amended containment at a relative two-segment
filename. -/
theorem save_path_under_destination_witness :
    startsSlash "sub/report.pdf" = false ∧
    ".." ∉ pySegs "sub/report.pdf" ∧
    strictlyUnder
      (resolveDots (save_file [5] "sub/report.pdf" ["root", "docs"] tsFix
        ⟨[], []⟩).2.path)
      (resolveDots ["root", "docs"]) :=
  ⟨by decide, by decide,
   save_path_under_destination [5] "sub/report.pdf" ["root", "docs"] tsFix
     ⟨[], []⟩ (by decide) (by decide)⟩

end Filing
